import Mathlib

/-!
SeaweedFS: index scanner, file-id hooks and the filer replication sink.

A shallow embedding of

* `weed/storage/idx/walk.go` (`WalkIndexFile`, `IdxFileEntry`),
* `weed/pb/filer_pb/filer_pb_helper.go` (`toFileIdObject`, `toFileIdString`,
  `BeforeEntrySerialization`, `AfterEntryDeserialization`, `CreateEntry`),
* `weed/replication/sink/filersink/{filer_sink,fetch_write}.go`
  (`FilerSink.CreateEntry`, `UpdateEntry`, `DeleteEntry`, `replicateChunks`,
  `replicateOneChunk`, `fetchAndWrite`),

followed by the theorems that settle the specification's claims about them.

Conventions.  Go's `error` is `Option GoError` (`none` is `nil`).  Code that talks
to the outside world (a reader, a callback, an RPC) is written in explicit state
passing over an arbitrary state type, and additionally records every external call
in a log, so that "how many times" and "in which order" can be stated.
-/

namespace Seaweed

/-- Go `error` values.  `EOF` is the sentinel `io.EOF` (compared with `==` in the
code); every other error is identified by its message. -/
inductive GoError where
  | EOF
  | mk (msg : String)
deriving DecidableEq, Repr

/-- The method `Error()` of an error value, as `%v` prints it. -/
def GoError.Error : GoError → String
  | .EOF => "EOF"
  | .mk msg => msg

/-! ## `weed/storage/idx/walk.go` -/

namespace idx

/-- The constants and decoders of package `types` (and `util.BytesToUint32`) that
`walk.go` uses.  Their declarations are not part of the sources at hand, so they are
parameters of the embedding.  Bytes are natural numbers; keys, offsets and sizes are
whatever natural number the decoder yields. -/
structure Types where
  NeedleIdSize : Nat
  OffsetSize : Nat
  SizeSize : Nat
  NeedleMapEntrySize : Nat
  BytesToNeedleId : List Nat → Nat
  BytesToOffset : List Nat → Nat
  BytesToUint32 : List Nat → Nat

/-- The constant `RowsToRead = 1024`. -/
def RowsToRead : Nat := 1024

/-- The Go slice expression `bytes[a:b]`. -/
def slice (bytes : List Nat) (a b : Nat) : List Nat :=
  (bytes.take b).drop a

/-- The function `IdxFileEntry`: splits one record into key, offset and size. -/
def IdxFileEntry (t : Types) (bytes : List Nat) : Nat × Nat × Nat :=
  (t.BytesToNeedleId (slice bytes 0 t.NeedleIdSize),
   t.BytesToOffset (slice bytes t.NeedleIdSize (t.NeedleIdSize + t.OffsetSize)),
   t.BytesToUint32 (slice bytes (t.NeedleIdSize + t.OffsetSize)
     (t.NeedleIdSize + t.OffsetSize + t.SizeSize)))

/-- An `io.ReaderAt` over a state `σ`: `ReadAt s n off` is the call
`r.ReadAt(p, off)` with `len(p) = n`.  It yields the next state, the bytes it put
into `p[0:count]` (so `count` is the length of that list) and the error. -/
structure ReaderAt (σ : Type) where
  ReadAt : σ → Nat → Nat → σ × List Nat × Option GoError

/-- The callback `fn` over a state `τ`. -/
abbrev Callback (τ : Type) := τ → Nat → Nat → Nat → τ × Option GoError

/-- What the walk did to the outside world, in order. -/
inductive Event where
  | read (off : Nat) (count : Nat) (e : Option GoError)
  | call (key offset size : Nat) (e : Option GoError)
deriving DecidableEq, Repr

/-- Whether the function has returned, and with which error. -/
inductive Status where
  | running
  | returned (e : Option GoError)
deriving DecidableEq, Repr

/-- How the inner `for` loop was left. -/
inductive RowsExit where
  | outOfFuel
  | returned
  | done
deriving DecidableEq, Repr

/-- State after the inner loop: callback state, the variable `e`, the log. -/
structure Rows (τ : Type) where
  c : τ
  e : Option GoError
  log : List Event
  exit : RowsExit

/-- The inner loop of `WalkIndexFile` (lines 27-32), from index `i`:
`for ; i+NeedleMapEntrySize <= count; i += NeedleMapEntrySize`.  The first argument
bounds the number of times the body is run. -/
def walkRows {τ : Type} (t : Types) (fn : Callback τ) (bytes : List Nat) (count : Nat) :
    Nat → Nat → τ → Option GoError → List Event → Rows τ
  | 0, i, c, e, log =>
    if i + t.NeedleMapEntrySize ≤ count then ⟨c, e, log, .outOfFuel⟩ else ⟨c, e, log, .done⟩
  | fuel + 1, i, c, e, log =>
    if i + t.NeedleMapEntrySize ≤ count then
      let rec3 := IdxFileEntry t (slice bytes i (i + t.NeedleMapEntrySize))
      let out := fn c rec3.1 rec3.2.1 rec3.2.2
      let log1 := log ++ [Event.call rec3.1 rec3.2.1 rec3.2.2 out.2]
      if out.2 ≠ none then ⟨out.1, out.2, log1, .returned⟩
      else walkRows t fn bytes count fuel (i + t.NeedleMapEntrySize) out.1 out.2 log1
    else ⟨c, e, log, .done⟩

/-- Final state of a walk: reader state, callback state, log and status. -/
structure Walk (σ τ : Type) where
  r : σ
  c : τ
  log : List Event
  status : Status

/-- The outer loop of `WalkIndexFile` (lines 26-39), entered with the result
`(bytes, e)` of the latest read and the updated `readerOffset`.  `inner` bounds each
run of the inner loop, the next argument the number of times the outer body is run. -/
def walkLoop {σ τ : Type} (t : Types) (r : ReaderAt σ) (fn : Callback τ) (inner : Nat) :
    Nat → σ → τ → Nat → List Nat → Option GoError → List Event → Walk σ τ
  | 0, s, c, _, bytes, e, log =>
    if (bytes.length > 0 ∧ e = none) ∨ e = some GoError.EOF then ⟨s, c, log, .running⟩
    else ⟨s, c, log, .returned e⟩
  | fuel + 1, s, c, readerOffset, bytes, e, log =>
    if (bytes.length > 0 ∧ e = none) ∨ e = some GoError.EOF then
      let rows := walkRows t fn bytes bytes.length inner 0 c e log
      match rows.exit with
      | .outOfFuel => ⟨s, rows.c, rows.log, .running⟩
      | .returned => ⟨s, rows.c, rows.log, .returned rows.e⟩
      | .done =>
        if rows.e = some GoError.EOF then ⟨s, rows.c, rows.log, .returned none⟩
        else
          let rd := r.ReadAt s (t.NeedleMapEntrySize * RowsToRead) readerOffset
          walkLoop t r fn inner fuel rd.1 rows.c (readerOffset + rd.2.1.length) rd.2.1 rd.2.2
            (rows.log ++ [Event.read readerOffset rd.2.1.length rd.2.2])
    else ⟨s, c, log, .returned e⟩

/-- The function `WalkIndexFile`.  `fuel` bounds the iterations of each loop; the
status is `running` when it does not suffice.  Counts and offsets are natural numbers:
sources are taken to be shorter than `2^63` bytes, so that `readerOffset` does not
overflow. -/
def WalkIndexFile {σ τ : Type} (t : Types) (r : ReaderAt σ) (fn : Callback τ)
    (fuel : Nat) (s : σ) (c : τ) : Walk σ τ :=
  let rd := r.ReadAt s (t.NeedleMapEntrySize * RowsToRead) 0
  walkLoop t r fn fuel fuel rd.1 c (0 + rd.2.1.length) rd.2.1 rd.2.2
    [Event.read 0 rd.2.1.length rd.2.2]

/-- A reader over a fixed content, as `os.File` and `bytes.Reader` behave: it copies
what is there from `off` on, and reports `io.EOF` when that is less than asked for.
When the bytes asked for end exactly at the end of the content, `io.ReaderAt` allows
both `nil` and `io.EOF`; `eager` picks `io.EOF`. -/
def contentReader (eager : Bool) : ReaderAt (List Nat) where
  ReadAt := fun content n off =>
    let data := (content.drop off).take n
    (content, data,
      if data.length < n then some GoError.EOF
      else if eager ∧ off + n = content.length then some GoError.EOF
      else none)

/-- The calls to `fn` in a log, in order: arguments and returned error. -/
def calls : List Event → List ((Nat × Nat × Nat) × Option GoError)
  | [] => []
  | Event.call k o s e :: l => ((k, o, s), e) :: calls l
  | Event.read _ _ _ :: l => calls l

/-- The reads in a log, in order: offset and returned error. -/
def reads : List Event → List (Nat × Option GoError)
  | [] => []
  | Event.read off _ e :: l => (off, e) :: reads l
  | Event.call _ _ _ _ :: l => reads l

/-- A call to `fn` that returned an error. -/
def Event.failedCall : Event → Bool
  | .call _ _ _ (some _) => true
  | _ => false

/-- A read that returned an error other than `io.EOF`. -/
def Event.failedRead : Event → Bool
  | .read _ _ (some e) => decide (e ≠ GoError.EOF)
  | _ => false

/-- An event that is a call to `fn`. -/
def Event.isCall : Event → Bool
  | .call _ _ _ _ => true
  | _ => false

/-- Big-endian value of a byte string. -/
def beValue (bytes : List Nat) : Nat :=
  bytes.foldl (fun acc b => acc * 256 + b) 0

/-- A callback that counts its calls and fails on the second one. -/
def errAtSecond : Callback Nat :=
  fun c _ _ _ => (c + 1, if c = 1 then some (GoError.mk "stop") else none)

/-- A reader whose first read yields four bytes and whose later reads fail. -/
def brokenReader : ReaderAt Nat where
  ReadAt := fun s _ _ =>
    (s + 1, if s = 0 then [1, 2, 3, 4] else [],
      if s = 0 then none else some (GoError.mk "io failure"))

/-- A small instance of the parameters: records of two bytes, key and offset of one
byte each, no size. -/
def types2 : Types where
  NeedleIdSize := 1
  OffsetSize := 1
  SizeSize := 0
  NeedleMapEntrySize := 2
  BytesToNeedleId := beValue
  BytesToOffset := beValue
  BytesToUint32 := beValue

/-- The events of calling `fn` once on each record, none failing. -/
def callEvents (t : Types) (recs : List (List Nat)) : List Event :=
  recs.map (fun r =>
    Event.call (IdxFileEntry t r).1 (IdxFileEntry t r).2.1 (IdxFileEntry t r).2.2 none)

end idx

/-! ## Package `needle`: file ids and their string form -/

namespace needle

/-- The struct `needle.FileId`. -/
structure FileId where
  VolumeId : Nat
  Key : Nat
  Cookie : Nat
deriving DecidableEq, Repr

/-- The part of package `needle` that `filer_pb_helper.go` calls: the parser
`ParseFileIdFromString` and the method `String` of a file id.  Package `needle` is not
among the sources at hand, so the two are parameters of the embedding. -/
structure Codec where
  ParseFileIdFromString : String → Except GoError FileId
  String : FileId → String

/-- The constructor `needle.NewFileId(volumeId, key, cookie)`. -/
def NewFileId (volumeId key cookie : Nat) : FileId :=
  ⟨volumeId, key, cookie⟩

/-- The character of a digit below sixteen, lower case. -/
def digitChar (d : Nat) : Char :=
  if d < 10 then Char.ofNat (48 + d) else Char.ofNat (87 + d)

/-- The value of a digit character, if it is one. -/
def digitVal (c : Char) : Option Nat :=
  if 48 ≤ c.toNat ∧ c.toNat ≤ 57 then some (c.toNat - 48)
  else if 97 ≤ c.toNat ∧ c.toNat ≤ 102 then some (c.toNat - 87)
  else none

/-- One step of reading a number in base `b`, most significant digit first. -/
def parseStep (b : Nat) (acc : Option Nat) (c : Char) : Option Nat :=
  match acc, digitVal c with
  | some a, some d => if d < b then some (a * b + d) else none
  | _, _ => none

/-- Reads a number in base `b`; fails on a character that is not a digit of the base. -/
def parseNat (b : Nat) (l : List Char) : Option Nat :=
  l.foldl (parseStep b) (some 0)

/-- Decimal digits of `n` without leading zeros; `fuel` bounds the number of digits. -/
def toDecimal : Nat → Nat → List Char
  | 0, _ => []
  | fuel + 1, n =>
    if n < 10 then [digitChar n] else toDecimal fuel (n / 10) ++ [digitChar (n % 10)]

/-- The last `width` hexadecimal digits of `n`, padded with zeros. -/
def toHex : Nat → Nat → List Char
  | 0, _ => []
  | width + 1, n => toHex width (n / 16) ++ [digitChar (n % 16)]

/-- Modelled from the spec: the method `String` of `needle.FileId` (package `needle` is not
among the sources).  The spec gives the string form of an address as
`<volumeId>,<sequenceKeyHex><cookieHex>`: the volume id in decimal, a comma, and the
hexadecimal digits of the fixed-width binary form of the key (8 bytes) and of the
cookie (4 bytes). -/
def specString (fid : FileId) : String :=
  String.mk (toDecimal 10 fid.VolumeId ++ ',' :: (toHex 16 fid.Key ++ toHex 8 fid.Cookie))

/-- Modelled from the spec: the function `needle.ParseFileIdFromString` (package `needle`
is not among the sources).  By the spec it accepts the grammar `volumeId,hexKeyCookie`
and fails with `MalformedAddress` otherwise: a non-empty decimal volume id that fits 32
bits, a comma, then 24 hexadecimal digits, the last 8 of which are the cookie. -/
def specParse (s : String) : Except GoError FileId :=
  match s.toList.span (fun c => c != ',') with
  | (vid, ',' :: keyCookie) =>
    if vid = [] ∨ keyCookie.length ≠ 24 then Except.error (GoError.mk "MalformedAddress")
    else
      match parseNat 10 vid, parseNat 16 (keyCookie.take 16), parseNat 16 (keyCookie.drop 16) with
      | some v, some k, some c =>
        if v < 2 ^ 32 then Except.ok ⟨v, k, c⟩
        else Except.error (GoError.mk "MalformedAddress")
      | _, _, _ => Except.error (GoError.mk "MalformedAddress")
  | _ => Except.error (GoError.mk "MalformedAddress")

/-- Modelled from the spec: the codec of package `needle` as the spec describes it. -/
def specCodec : Codec where
  ParseFileIdFromString := specParse
  String := specString

end needle

/-! ## `weed/pb/filer_pb/filer_pb_helper.go` -/

namespace filer_pb

/-- The message `filer_pb.FileId`: `volume_id` and `cookie` are `uint32`, `file_key` is
`uint64`. -/
structure FileId where
  VolumeId : Nat
  Cookie : Nat
  FileKey : Nat
deriving DecidableEq, Repr

/-- The function `toFileIdObject`; the conversions `uint32(..)` and `uint64(..)` are
reductions modulo `2^32` and `2^64`. -/
def toFileIdObject (n : needle.Codec) (fileIdStr : String) : Except GoError FileId :=
  match n.ParseFileIdFromString fileIdStr with
  | Except.error err => Except.error err
  | Except.ok t =>
    Except.ok { VolumeId := t.VolumeId % 2 ^ 32, Cookie := t.Cookie % 2 ^ 32,
                FileKey := t.Key % 2 ^ 64 }

/-- The method `(*FileId).toFileIdString`. -/
def toFileIdString (n : needle.Codec) (fid : FileId) : String :=
  n.String (needle.NewFileId fid.VolumeId fid.FileKey fid.Cookie)


/-- The message `filer_pb.FileChunk`, with the fields the code at hand reads or writes.
`Fid` and `SourceFid` are pointers: `none` is `nil`. -/
structure FileChunk where
  FileId : String
  Offset : Int
  Size : Nat
  Mtime : Int
  ETag : String
  SourceFileId : String
  Fid : Option Seaweed.filer_pb.FileId
  SourceFid : Option Seaweed.filer_pb.FileId
deriving DecidableEq, Repr

/-- The body of the loop of `BeforeEntrySerialization`, on one chunk. -/
def beforeChunk (n : needle.Codec) (chunk : FileChunk) : FileChunk :=
  let chunk1 :=
    if chunk.FileId ≠ "" then
      match toFileIdObject n chunk.FileId with
      | Except.ok fid => { chunk with Fid := some fid, FileId := "" }
      | Except.error _ => chunk
    else chunk
  if chunk1.SourceFileId ≠ "" then
    match toFileIdObject n chunk1.SourceFileId with
    | Except.ok fid => { chunk1 with SourceFid := some fid, SourceFileId := "" }
    | Except.error _ => chunk1
  else chunk1

/-- The function `BeforeEntrySerialization`.  The Go code updates the chunks in place
through the pointers of the slice; the embedding returns the updated chunks. -/
def BeforeEntrySerialization (n : needle.Codec) (chunks : List FileChunk) : List FileChunk :=
  chunks.map (beforeChunk n)

/-- The body of the loop of `AfterEntryDeserialization`, on one chunk. -/
def afterChunk (n : needle.Codec) (chunk : FileChunk) : FileChunk :=
  let chunk1 :=
    match chunk.Fid with
    | some fid => if chunk.FileId = "" then { chunk with FileId := toFileIdString n fid } else chunk
    | none => chunk
  match chunk1.SourceFid with
  | some fid =>
    if chunk1.SourceFileId = "" then { chunk1 with SourceFileId := toFileIdString n fid }
    else chunk1
  | none => chunk1

/-- The function `AfterEntryDeserialization`, returning the updated chunks. -/
def AfterEntryDeserialization (n : needle.Codec) (chunks : List FileChunk) : List FileChunk :=
  chunks.map (afterChunk n)

/-- The method `(*FileChunk).GetFileIdString`: the string it returns and the chunk with
the string cached in `FileId`. -/
def GetFileIdString (n : needle.Codec) (c : FileChunk) : String × FileChunk :=
  if c.FileId ≠ "" then (c.FileId, c)
  else
    match c.Fid with
    | some fid => (toFileIdString n fid, { c with FileId := toFileIdString n fid })
    | none => ("", c)

/-- The message `filer_pb.FuseAttributes`.  The code at hand reads `Mtime` only; the
other fields stand for the rest of the attributes and are carried along. -/
structure FuseAttributes where
  FileSize : Nat
  Mtime : Int
  FileMode : Nat
  Uid : Nat
  Gid : Nat
deriving DecidableEq, Repr

/-- The message `filer_pb.Entry`.  `Attributes` is taken to be non-nil, as the code
assumes when it reads `existingEntry.Attributes.Mtime`. -/
structure Entry where
  Name : String
  IsDirectory : Bool
  Chunks : List FileChunk
  Attributes : FuseAttributes
deriving DecidableEq, Repr

/-- The message `filer_pb.LookupDirectoryEntryRequest`. -/
structure LookupDirectoryEntryRequest where
  Directory : String
  Name : String
deriving DecidableEq, Repr

/-- The message `filer_pb.LookupDirectoryEntryResponse`; `Entry` is taken to be non-nil
when the RPC returns no error. -/
structure LookupDirectoryEntryResponse where
  Entry : Entry
deriving DecidableEq, Repr

/-- The message `filer_pb.CreateEntryRequest`. -/
structure CreateEntryRequest where
  Directory : String
  Entry : Entry
  OExcl : Bool
deriving DecidableEq, Repr

/-- The message `filer_pb.CreateEntryResponse`; `filer_pb.CreateEntry` reads its field
`Error`. -/
structure CreateEntryResponse where
  Error : String
deriving DecidableEq, Repr

/-- The message `filer_pb.UpdateEntryRequest`. -/
structure UpdateEntryRequest where
  Directory : String
  Entry : Entry
deriving DecidableEq, Repr

/-- Modelled from the spec: the message `filer_pb.UpdateEntryResponse`, whose declaration
is not among the sources.  By the spec the update RPC yields `ok` or an application
error with a message; as in `CreateEntryResponse`, an empty `Error` is `ok`. -/
structure UpdateEntryResponse where
  Error : String
deriving DecidableEq, Repr

/-- The message `filer_pb.DeleteEntryRequest`. -/
structure DeleteEntryRequest where
  Directory : String
  Name : String
  IsDeleteData : Bool
deriving DecidableEq, Repr

/-- Modelled from the spec: the message `filer_pb.DeleteEntryResponse`, whose declaration
is not among the sources.  By the spec the delete RPC yields `ok` or an application
error with a message; as in `CreateEntryResponse`, an empty `Error` is `ok`. -/
structure DeleteEntryResponse where
  Error : String
deriving DecidableEq, Repr

/-- The message `filer_pb.AssignVolumeRequest`, with the fields `fetchAndWrite` sets. -/
structure AssignVolumeRequest where
  Count : Int
  Replication : String
  Collection : String
  TtlSec : Int
  DataCenter : String
  ParentPath : String
deriving DecidableEq, Repr

/-- The message `filer_pb.AssignVolumeResponse`, with the fields `fetchAndWrite` reads. -/
structure AssignVolumeResponse where
  FileId : String
  Url : String
  Auth : String
  Error : String
deriving DecidableEq, Repr

end filer_pb

/-! ## `weed/replication/sink/filersink` -/

namespace filersink

open filer_pb

/-- What `FilerSource.ReadPart` returns besides the error: the file name, the two
headers the code reads, and the stream. -/
structure Part where
  filename : String
  contentEncoding : String
  contentType : String
  readCloser : Nat
deriving DecidableEq, Repr

/-- The arguments of `operation.Upload` as the code passes them. -/
structure UploadRequest where
  fileUrl : String
  filename : String
  readCloser : Nat
  isGzip : Bool
  contentType : String
  auth : String
deriving DecidableEq, Repr

/-- The field of `operation.UploadResult` that the code reads. -/
structure UploadResult where
  Error : String
deriving DecidableEq, Repr

/-- An external call made by the sink, or (`transferred`) the return of one
`replicateOneChunk` task: the source chunk and what the task returned. -/
inductive Call where
  | lookup (req : LookupDirectoryEntryRequest)
  | create (req : CreateEntryRequest)
  | update (req : UpdateEntryRequest)
  | delete (req : DeleteEntryRequest)
  | assign (req : AssignVolumeRequest)
  | readPart (fileId : String)
  | upload (req : UploadRequest)
  | close (readCloser : Nat)
  | transferred (source : FileChunk) (result : Except GoError FileChunk)

/-- Everything outside the sink, over a state `σ` of the outside world: the pure helpers
of package `filer2`, the connection cache of package `util`, the RPCs of
`filer_pb.SeaweedFilerClient`, the source filer, the upload to a volume server, the
printing of a request by `%v`, the file-id codec, and the scheduler of the goroutines of
`replicateChunks`: `schedule` gives, for the source chunks, the goroutines (by index) in
the order in which they get to run one statement each.  None of these is among the
sources; all are parameters. -/
structure Env (σ : Type) where
  DirAndName : String → String × String
  ETag : List FileChunk → String
  MinusChunks : List FileChunk → List FileChunk → List FileChunk
  connect : σ → String → σ × Option GoError
  LookupDirectoryEntry : σ → LookupDirectoryEntryRequest →
    σ × Except GoError LookupDirectoryEntryResponse
  CreateEntry : σ → CreateEntryRequest → σ × Except GoError CreateEntryResponse
  UpdateEntry : σ → UpdateEntryRequest → σ × Except GoError UpdateEntryResponse
  DeleteEntry : σ → DeleteEntryRequest → σ × Except GoError DeleteEntryResponse
  AssignVolume : σ → AssignVolumeRequest → σ × Except GoError AssignVolumeResponse
  ReadPart : σ → String → σ × Except GoError Part
  Close : σ → Nat → σ
  Upload : σ → UploadRequest → σ × Except GoError UploadResult
  showAssign : AssignVolumeRequest → String
  codec : needle.Codec
  schedule : List FileChunk → List Nat

/-- The struct `FilerSink` (the source filer is part of `Env`). -/
structure FilerSink where
  grpcAddress : String
  dir : String
  replication : String
  collection : String
  ttlSec : Int
  dataCenter : String
deriving DecidableEq, Repr

/-- Result of a piece of sink code: the state of the outside world afterwards, the calls
made in order, and the value returned. -/
structure Ran (σ α : Type) where
  state : σ
  log : List Call
  val : α

end filersink

namespace util

open filersink

/-- Modelled from the spec: the function `util.WithCachedGrpcClient`, which is not among
the sources.  By the spec connections to a metadata service are created lazily and
cached by address: the call obtains the connection, returns that error if it cannot,
and otherwise runs `fn` once and returns what `fn` returns.  The result type `β` is the
error together with the variables that the closure assigns; `failed` gives it when
`fn` is not run. -/
def WithCachedGrpcClient {σ β : Type} (connect : σ → String → σ × Option GoError)
    (failed : GoError → β) (fn : σ → Ran σ β) (s : σ) (address : String) : Ran σ β :=
  match connect s address with
  | (s1, some err) => ⟨s1, [], failed err⟩
  | (s1, none) => fn s1

end util

namespace filersink

/-- The method `FilerSink.withFilerClient`; the client handed to `fn` is the RPCs of
`env`. -/
def withFilerClient {σ β : Type} (env : Env σ) (fs : FilerSink) (s : σ)
    (failed : GoError → β) (fn : σ → Ran σ β) : Ran σ β :=
  util.WithCachedGrpcClient env.connect failed fn s fs.grpcAddress

end filersink

namespace filer_pb

open filersink

/-- The function `filer_pb.CreateEntry`. -/
def CreateEntry {σ : Type} (env : Env σ) (s : σ) (request : CreateEntryRequest) :
    Ran σ (Option GoError) :=
  match env.CreateEntry s request with
  | (s1, Except.error err) =>
    ⟨s1, [Call.create request], some (GoError.mk ("CreateEntry: " ++ err.Error))⟩
  | (s1, Except.ok resp) =>
    if resp.Error ≠ "" then
      ⟨s1, [Call.create request], some (GoError.mk ("CreateEntry : " ++ resp.Error))⟩
    else ⟨s1, [Call.create request], none⟩

end filer_pb

namespace filersink

open filer_pb

/-- The string that `sourceChunk.GetFileIdString()` returns.  The call also caches the
string in the chunk; no later step reads the source chunk in another way, so the
cache is left out. -/
def fileIdString {σ : Type} (env : Env σ) (c : FileChunk) : String :=
  (GetFileIdString env.codec c).1

/-- The call `fs.withFilerClient(func ...)` of `fetchAndWrite` (lines 67-90): the
assignment RPC.  It yields the error and the values of the variables `fileId`, `host`
and `auth`, which the closure assigns when all went well and which are empty
otherwise. -/
def assignVolume {σ : Type} (env : Env σ) (fs : FilerSink) (s : σ) (dir : String) :
    Ran σ (Option GoError × String × String × String) :=
  withFilerClient env fs s (fun err => (some err, "", "", "")) (fun s1 =>
    let request : AssignVolumeRequest :=
      { Count := 1, Replication := fs.replication, Collection := fs.collection,
        TtlSec := fs.ttlSec, DataCenter := fs.dataCenter, ParentPath := dir }
    match env.AssignVolume s1 request with
    | (s2, Except.error err) => ⟨s2, [Call.assign request], (some err, "", "", "")⟩
    | (s2, Except.ok resp) =>
      if resp.Error ≠ "" then
        ⟨s2, [Call.assign request],
          (some (GoError.mk ("assign volume failure " ++ env.showAssign request ++ ": "
            ++ resp.Error)), "", "", "")⟩
      else ⟨s2, [Call.assign request], (none, resp.FileId, resp.Url, resp.Auth)⟩)

/-- The method `FilerSink.fetchAndWrite`: the new file id or the error.  The deferred
`readCloser.Close()` is the last call whenever `ReadPart` succeeded. -/
def fetchAndWrite {σ : Type} (env : Env σ) (fs : FilerSink) (s : σ) (sourceChunk : FileChunk)
    (dir : String) : Ran σ (Except GoError String) :=
  match env.ReadPart s (fileIdString env sourceChunk) with
  | (s1, Except.error err) =>
    ⟨s1, [Call.readPart (fileIdString env sourceChunk)],
      Except.error (GoError.mk ("read part " ++ fileIdString env sourceChunk ++ ": " ++ err.Error))⟩
  | (s1, Except.ok part) =>
    let a := assignVolume env fs s1 dir
    match a.val with
    | (some err, _, _, _) =>
      ⟨env.Close a.state part.readCloser,
        Call.readPart (fileIdString env sourceChunk) :: a.log ++ [Call.close part.readCloser],
        Except.error (GoError.mk ("filerGrpcAddress assign volume: " ++ err.Error))⟩
    | (none, fileId, host, auth) =>
      let req : UploadRequest :=
        { fileUrl := "http://" ++ host ++ "/" ++ fileId, filename := part.filename,
          readCloser := part.readCloser, isGzip := "gzip" == part.contentEncoding,
          contentType := part.contentType, auth := auth }
      let log := Call.readPart (fileIdString env sourceChunk) :: a.log ++
        [Call.upload req, Call.close part.readCloser]
      match env.Upload a.state req with
      | (s3, Except.error err) =>
        ⟨env.Close s3 part.readCloser, log,
          Except.error (GoError.mk ("upload data: " ++ err.Error))⟩
      | (s3, Except.ok uploadResult) =>
        if uploadResult.Error ≠ "" then
          ⟨env.Close s3 part.readCloser, log,
            Except.error (GoError.mk ("upload result: " ++ uploadResult.Error))⟩
        else ⟨env.Close s3 part.readCloser, log, Except.ok fileId⟩

/-- The method `FilerSink.replicateOneChunk`. -/
def replicateOneChunk {σ : Type} (env : Env σ) (fs : FilerSink) (s : σ) (sourceChunk : FileChunk)
    (dir : String) : Ran σ (Except GoError FileChunk) :=
  let r := fetchAndWrite env fs s sourceChunk dir
  match r.val with
  | Except.error err =>
    ⟨r.state, r.log,
      Except.error (GoError.mk ("copy " ++ fileIdString env sourceChunk ++ ": " ++ err.Error))⟩
  | Except.ok fileId =>
    ⟨r.state, r.log, Except.ok
      { FileId := fileId, Offset := sourceChunk.Offset, Size := sourceChunk.Size,
        Mtime := sourceChunk.Mtime, ETag := sourceChunk.ETag,
        SourceFileId := fileIdString env sourceChunk, Fid := none, SourceFid := none }⟩

/-- One goroutine of `replicateChunks` (lines 25-32), by the statement it runs next:
the call of `replicateOneChunk` (line 27); the assignment `err = e` after a failed
transfer (line 29); the read of the shared slice `replicatedChunks` in
`append(replicatedChunks, replicatedChunk)` (line 31), where `replicatedChunk` is nil
after a failed transfer; the assignment of the appended slice to `replicatedChunks`
(line 31); or nothing more. -/
inductive Task where
  | start (chunk : FileChunk)
  | setErr (e : GoError)
  | load (replicatedChunk : Option FileChunk)
  | store (read : List (Option FileChunk)) (replicatedChunk : Option FileChunk)
  | done

/-- The goroutines of `replicateChunks` under way: the outside world, the calls made so
far, the shared variables `replicatedChunks` (nil pointers are `none`) and `err`, and
where each goroutine stands. -/
structure Pool (σ : Type) where
  state : σ
  log : List Call
  replicatedChunks : List (Option FileChunk)
  err : Option GoError
  tasks : Nat → Task

/-- Goroutine `i` runs its next statement.  Nothing orders the goroutines' accesses to
`replicatedChunks` and `err`, so between the read and the write of line 31 other
goroutines may run: the write stores what this goroutine read, with its own result
appended.  A call of `replicateOneChunk` is taken as one step. -/
def stepTask {σ : Type} (env : Env σ) (fs : FilerSink) (dir : String) (p : Pool σ) (i : Nat) :
    Pool σ :=
  match p.tasks i with
  | Task.start chunk =>
    let r := replicateOneChunk env fs p.state chunk dir
    { p with
      state := r.state
      log := p.log ++ r.log ++ [Call.transferred chunk r.val]
      tasks := Function.update p.tasks i
        (match r.val with
          | Except.error e => Task.setErr e
          | Except.ok replicatedChunk => Task.load (some replicatedChunk)) }
  | Task.setErr e =>
    { p with err := some e, tasks := Function.update p.tasks i (Task.load none) }
  | Task.load replicatedChunk =>
    { p with tasks := Function.update p.tasks i (Task.store p.replicatedChunks replicatedChunk) }
  | Task.store read replicatedChunk =>
    { p with replicatedChunks := read ++ [replicatedChunk],
             tasks := Function.update p.tasks i Task.done }
  | Task.done => p

/-- Goroutine `i` runs to its end: it has at most four statements left. -/
def finishTask {σ : Type} (env : Env σ) (fs : FilerSink) (dir : String) (p : Pool σ) (i : Nat) :
    Pool σ :=
  stepTask env fs dir (stepTask env fs dir (stepTask env fs dir (stepTask env fs dir p i) i) i) i

/-- The method `FilerSink.replicateChunks`: the slice `replicatedChunks`, which holds a
nil pointer for each failed chunk that got appended, and `err`.  One goroutine is
started per source chunk; they run statement by statement in the order of
`env.schedule`, and `wg.Wait()` returns once all have ended: the goroutines that the
schedule has not run to their end are run to it, in the order of the chunks.
`fetch_write.go` declares `replicateChunks(sourceChunks, dir)` while `filer_sink.go`
calls it with a context and the chunks; the embedding follows the declaration, and
the callers pass the directory of the key (`CreateEntry`) and `newParentPath`
(`UpdateEntry`).  Contexts are left out throughout. -/
def replicateChunks {σ : Type} (env : Env σ) (fs : FilerSink) (s : σ)
    (sourceChunks : List FileChunk) (dir : String) :
    Ran σ (List (Option FileChunk) × Option GoError) :=
  if sourceChunks.length = 0 then ⟨s, [], ([], none)⟩
  else
    let started : Pool σ :=
      { state := s, log := [], replicatedChunks := [], err := none,
        tasks := fun i =>
          match sourceChunks[i]? with
          | some chunk => Task.start chunk
          | none => Task.done }
    let scheduled := (env.schedule sourceChunks).foldl (stepTask env fs dir) started
    let waited := (List.range sourceChunks.length).foldl (finishTask env fs dir) scheduled
    ⟨waited.state, waited.log, (waited.replicatedChunks, waited.err)⟩

/-- The method `FilerSink.DeleteEntry`. -/
def FilerSink.DeleteEntry {σ : Type} (env : Env σ) (fs : FilerSink) (s : σ) (key : String)
    (_isDirectory deleteIncludeChunks : Bool) : Ran σ (Option GoError) :=
  withFilerClient env fs s some (fun s1 =>
    let request : DeleteEntryRequest :=
      { Directory := (env.DirAndName key).1, Name := (env.DirAndName key).2,
        IsDeleteData := deleteIncludeChunks }
    match env.DeleteEntry s1 request with
    | (s2, Except.error err) =>
      ⟨s2, [Call.delete request],
        some (GoError.mk ("delete entry " ++ key ++ ": " ++ err.Error))⟩
    | (s2, Except.ok _) => ⟨s2, [Call.delete request], none⟩)

/-- Lines 108-133 of `FilerSink.CreateEntry`: the transfer of the chunks and the
creation of the entry, after the lookup did not end the call.  The slice
`replicatedChunks` is read only when `err` is nil, and then it holds no nil pointer;
`reduceOption` makes it the chunk list of the entry. -/
def createReplicated {σ : Type} (env : Env σ) (fs : FilerSink) (s : σ) (key : String)
    (entry : Entry) (log : List Call) : Ran σ (Option GoError) :=
  let r := replicateChunks env fs s entry.Chunks (env.DirAndName key).1
  match r.val.2 with
  | some err =>
    ⟨r.state, log ++ r.log,
      some (GoError.mk ("replicate entry chunks " ++ key ++ ": " ++ err.Error))⟩
  | none =>
    let request : CreateEntryRequest :=
      { Directory := (env.DirAndName key).1,
        Entry := { Name := (env.DirAndName key).2, IsDirectory := entry.IsDirectory,
                   Attributes := entry.Attributes, Chunks := r.val.1.reduceOption },
        OExcl := false }
    let c := filer_pb.CreateEntry env r.state request
    match c.val with
    | some err =>
      ⟨c.state, log ++ r.log ++ c.log,
        some (GoError.mk ("create entry " ++ key ++ ": " ++ err.Error))⟩
    | none => ⟨c.state, log ++ r.log ++ c.log, none⟩

/-- The method `FilerSink.CreateEntry`. -/
def FilerSink.CreateEntry {σ : Type} (env : Env σ) (fs : FilerSink) (s : σ) (key : String)
    (entry : Entry) : Ran σ (Option GoError) :=
  withFilerClient env fs s some (fun s1 =>
    let lookupRequest : LookupDirectoryEntryRequest :=
      { Directory := (env.DirAndName key).1, Name := (env.DirAndName key).2 }
    match env.LookupDirectoryEntry s1 lookupRequest with
    | (s2, Except.ok resp) =>
      if env.ETag resp.Entry.Chunks = env.ETag entry.Chunks then
        ⟨s2, [Call.lookup lookupRequest], none⟩
      else createReplicated env fs s2 key entry [Call.lookup lookupRequest]
    | (s2, Except.error _) => createReplicated env fs s2 key entry [Call.lookup lookupRequest])

/-- The function `compareChunks`. -/
def compareChunks {σ : Type} (env : Env σ) (oldEntry newEntry : Entry) :
    List FileChunk × List FileChunk :=
  (env.MinusChunks oldEntry.Chunks newEntry.Chunks, env.MinusChunks newEntry.Chunks oldEntry.Chunks)

/-- Lines 194-207 of `FilerSink.UpdateEntry`: the write of `existingEntry` under
`newParentPath`, with `foundExistingEntry = true`. -/
def saveUpdated {σ : Type} (env : Env σ) (fs : FilerSink) (s : σ) (key newParentPath : String)
    (existingEntry : Entry) (log : List Call) : Ran σ (Bool × Option GoError) :=
  let w := withFilerClient env fs s some (fun s1 =>
    let request : UpdateEntryRequest := { Directory := newParentPath, Entry := existingEntry }
    match env.UpdateEntry s1 request with
    | (s2, Except.error err) =>
      ⟨s2, [Call.update request],
        some (GoError.mk ("update existingEntry " ++ key ++ ": " ++ err.Error))⟩
    | (s2, Except.ok _) => ⟨s2, [Call.update request], none⟩)
  ⟨w.state, log ++ w.log, (true, w.val)⟩

/-- Lines 143-160 of `FilerSink.UpdateEntry`: the lookup of the existing entry.  It
yields the error, or else the entry the closure stores in `existingEntry`. -/
def lookupExisting {σ : Type} (env : Env σ) (fs : FilerSink) (s : σ) (key : String) :
    Ran σ (Except GoError Entry) :=
  withFilerClient env fs s Except.error (fun s1 =>
    let request : LookupDirectoryEntryRequest :=
      { Directory := (env.DirAndName key).1, Name := (env.DirAndName key).2 }
    match env.LookupDirectoryEntry s1 request with
    | (s2, Except.error err) => ⟨s2, [Call.lookup request], Except.error err⟩
    | (s2, Except.ok resp) => ⟨s2, [Call.lookup request], Except.ok resp.Entry⟩)

/-- The method `FilerSink.UpdateEntry`: `(foundExistingEntry, err)`.  As in `CreateEntry`
the slice `replicatedChunks` is read only when `err` is nil, where it holds no nil
pointer. -/
def FilerSink.UpdateEntry {σ : Type} (env : Env σ) (fs : FilerSink) (s : σ) (key : String)
    (oldEntry : Entry) (newParentPath : String) (newEntry : Entry) (deleteIncludeChunks : Bool) :
    Ran σ (Bool × Option GoError) :=
  let l := lookupExisting env fs s key
  match l.val with
  | Except.error err =>
    ⟨l.state, l.log, (false, some (GoError.mk ("lookup " ++ key ++ ": " ++ err.Error)))⟩
  | Except.ok existingEntry =>
    if existingEntry.Attributes.Mtime > newEntry.Attributes.Mtime then
      saveUpdated env fs l.state key newParentPath existingEntry l.log
    else if env.ETag newEntry.Chunks = env.ETag existingEntry.Chunks then
      saveUpdated env fs l.state key newParentPath existingEntry l.log
    else
      let deletedChunks := (compareChunks env oldEntry newEntry).1
      let newChunks := (compareChunks env oldEntry newEntry).2
      let existingEntry1 : Entry :=
        if deleteIncludeChunks then
          { existingEntry with Chunks := env.MinusChunks existingEntry.Chunks deletedChunks }
        else existingEntry
      let r := replicateChunks env fs l.state newChunks newParentPath
      match r.val.2 with
      | some err =>
        ⟨r.state, l.log ++ r.log,
          (true, some (GoError.mk ("replicte " ++ key ++ " chunks error: " ++ err.Error)))⟩
      | none =>
        saveUpdated env fs r.state key newParentPath
          { existingEntry1 with Chunks := existingEntry1.Chunks ++ r.val.1.reduceOption }
          (l.log ++ r.log)

end filersink

namespace filersink

open filer_pb

/-- A metadata write: a create, update or delete RPC. -/
def Call.isWrite : Call → Bool
  | .create _ => true
  | .update _ => true
  | .delete _ => true
  | _ => false

/-- A lookup or a metadata write: the RPCs that `replicateChunks` never makes. -/
def Call.isMeta : Call → Bool
  | .lookup _ => true
  | .create _ => true
  | .update _ => true
  | .delete _ => true
  | _ => false

/-- The return of a transfer task. -/
def Call.isTransferred : Call → Bool
  | .transferred _ _ => true
  | _ => false

/-- The return of a transfer task that failed. -/
def Call.isFailedTransfer : Call → Bool
  | .transferred _ (Except.error _) => true
  | _ => false

/-- The transfer tasks of a log, in the order they returned: source chunk and result. -/
def transfers : List Call → List (FileChunk × Except GoError FileChunk)
  | [] => []
  | Call.transferred c r :: l => (c, r) :: transfers l
  | _ :: l => transfers l

/-- A goroutine that is not about to store an error and neither holds nor has read a nil
pointer. -/
def Task.noNil : Task → Bool
  | Task.setErr _ => false
  | Task.load replicatedChunk => replicatedChunk.isSome
  | Task.store read replicatedChunk => replicatedChunk.isSome && read.all Option.isSome
  | _ => true

/-- What holds of the goroutines of `replicateChunks` at every moment: no lookup and no
metadata write has been made; if a transfer has failed, `err` is set or some goroutine
is about to set it; and as long as no transfer has failed, no nil pointer is in
`replicatedChunks` or on its way there. -/
def Pool.Inv {σ : Type} (p : Pool σ) : Prop :=
  (∀ x ∈ p.log, x.isMeta = false) ∧
  ((∃ x ∈ p.log, x.isFailedTransfer = true) →
    p.err ≠ none ∨ ∃ j e, p.tasks j = Task.setErr e) ∧
  ((∀ x ∈ p.log, x.isFailedTransfer = false) →
    (∀ x ∈ p.replicatedChunks, x ≠ none) ∧ ∀ j, (p.tasks j).noNil = true)

/-- State of the test double of the outside world: how many assignments were asked
for, and the journal of the entries the destination filer was told to store. -/
structure DemoState where
  assigns : Nat
  written : List (String × Entry)
deriving DecidableEq, Repr

/-- A test double of the outside world.  The destination filer holds `existing` (if
any) at every key; its update RPC fails at transport level under directory `"/down"`,
answers with an application error under `"/full"` and stores the entry otherwise; its
delete RPC answers with an application error; the second assignment asked for is
refused with an application error; the goroutines of a transfer run one after
another. -/
def demoEnv (existing : Option Entry) : Env DemoState where
  DirAndName := fun key => ("/", key)
  ETag := fun chunks => String.join (chunks.map (fun c => c.ETag))
  MinusChunks := fun as bs => as.filter (fun a => !(bs.any (fun b => b.FileId == a.FileId)))
  connect := fun s _ => (s, none)
  LookupDirectoryEntry := fun s _ =>
    (s, match existing with
      | some e => Except.ok ⟨e⟩
      | none => Except.error (GoError.mk "not found"))
  CreateEntry := fun s req => ({ s with written := s.written ++ [(req.Directory, req.Entry)] },
    Except.ok ⟨""⟩)
  UpdateEntry := fun s req =>
    if req.Directory = "/down" then (s, Except.error (GoError.mk "unavailable"))
    else if req.Directory = "/full" then (s, Except.ok ⟨"quota exceeded"⟩)
    else ({ s with written := s.written ++ [(req.Directory, req.Entry)] }, Except.ok ⟨""⟩)
  DeleteEntry := fun s _ => (s, Except.ok ⟨"directory not empty"⟩)
  AssignVolume := fun s _ =>
    ({ s with assigns := s.assigns + 1 },
      Except.ok { FileId := "7,0000000000000001000000aa", Url := "dst:8080", Auth := "",
                  Error := if s.assigns = 1 then "no free volumes" else "" })
  ReadPart := fun s fileId => (s, Except.ok ⟨fileId, "", "text/plain", 0⟩)
  Close := fun s _ => s
  Upload := fun s _ => (s, Except.ok ⟨""⟩)
  showAssign := fun req => req.ParentPath
  codec := needle.specCodec
  schedule := fun _ => []

/-- A sink for the test double. -/
def demoSink : FilerSink :=
  { grpcAddress := "dst:18888", dir := "/backup", replication := "000", collection := "",
    ttlSec := 0, dataCenter := "" }

/-- A chunk with the given file id and content fingerprint. -/
def demoChunk (fileId eTag : String) : FileChunk :=
  { FileId := fileId, Offset := 0, Size := 4, Mtime := 0, ETag := eTag, SourceFileId := "",
    Fid := none, SourceFid := none }

/-- An entry with the given modification time and chunks. -/
def demoEntry (mtime : Int) (chunks : List FileChunk) : Entry :=
  { Name := "f", IsDirectory := false, Chunks := chunks,
    Attributes := { FileSize := 4, Mtime := mtime, FileMode := 0, Uid := 0, Gid := 0 } }

/-- The test double with every assignment granted, the first under file id
`"7,0000000000000001000000aa"` and the later ones under `"8,0000000000000002000000bb"`,
and with the first two goroutines of a transfer interleaved statement by statement:
both finish `replicateOneChunk`, then both read the shared slice, then both store
their `append`. -/
def raceEnv (existing : Option Entry) : Env DemoState :=
  { demoEnv existing with
    AssignVolume := fun s _ =>
      ({ s with assigns := s.assigns + 1 },
        Except.ok { FileId := if s.assigns = 0 then "7,0000000000000001000000aa"
                              else "8,0000000000000002000000bb",
                    Url := "dst:8080", Auth := "", Error := "" })
    schedule := fun _ => [0, 1, 0, 1, 0, 1] }

/-- The three steps of one transfer all succeed from state `s`, the assignment answering
`resp`: `ReadPart` returns a part; the connection is there and `AssignVolume` returns
`resp` with an empty `Error`; `operation.Upload` of the part to `resp.Url` returns a
result with an empty `Error`. -/
def stepsSucceed {σ : Type} (env : Env σ) (fs : FilerSink) (s : σ) (sourceChunk : FileChunk)
    (dir : String) (resp : AssignVolumeResponse) : Prop :=
  ∃ (s1 s2 s3 s4 : σ) (part : Part) (uploadResult : UploadResult),
    env.ReadPart s (fileIdString env sourceChunk) = (s1, Except.ok part) ∧
    env.connect s1 fs.grpcAddress = (s2, none) ∧
    env.AssignVolume s2
      { Count := 1, Replication := fs.replication, Collection := fs.collection,
        TtlSec := fs.ttlSec, DataCenter := fs.dataCenter, ParentPath := dir }
      = (s3, Except.ok resp) ∧
    resp.Error = "" ∧
    env.Upload s3
      { fileUrl := "http://" ++ resp.Url ++ "/" ++ resp.FileId, filename := part.filename,
        readCloser := part.readCloser, isGzip := "gzip" == part.contentEncoding,
        contentType := part.contentType, auth := resp.Auth }
      = (s4, Except.ok uploadResult) ∧
    uploadResult.Error = ""

end filersink

end Seaweed

/-! # Theorems -/

namespace Seaweed

/-! ## The index scanner -/

namespace idx

theorem calls_append (l₁ l₂ : List Event) : calls (l₁ ++ l₂) = calls l₁ ++ calls l₂ := by
  induction l₁ with
  | nil => rfl
  | cons ev l ih => cases ev <;> simp [calls, ih]

theorem reads_append (l₁ l₂ : List Event) : reads (l₁ ++ l₂) = reads l₁ ++ reads l₂ := by
  induction l₁ with
  | nil => rfl
  | cons ev l ih => cases ev <;> simp [reads, ih]

theorem calls_ok_of_no_failedCall (l : List Event) (h : ∀ ev ∈ l, ev.failedCall = false) :
    ∀ x ∈ calls l, x.2 = none := by
  induction l with
  | nil => simp [calls]
  | cons ev l ih =>
    have hl : ∀ ev ∈ l, ev.failedCall = false := fun e he => h e (List.mem_cons_of_mem _ he)
    have hev := h ev (List.mem_cons_self _ _)
    cases ev with
    | read off n e => simpa [calls] using ih hl
    | call k o s e =>
      cases e with
      | none =>
        intro x hx
        simp only [calls, List.mem_cons] at hx
        rcases hx with rfl | hx
        · rfl
        · exact ih hl x hx
      | some err => simp [Event.failedCall] at hev

theorem reads_ok_of_no_failedRead (l : List Event) (h : ∀ ev ∈ l, ev.failedRead = false) :
    ∀ x ∈ reads l, x.2 = none ∨ x.2 = some GoError.EOF := by
  induction l with
  | nil => simp [reads]
  | cons ev l ih =>
    have hl : ∀ ev ∈ l, ev.failedRead = false := fun e he => h e (List.mem_cons_of_mem _ he)
    have hev := h ev (List.mem_cons_self _ _)
    cases ev with
    | call k o s e => simpa [reads] using ih hl
    | read off n e =>
      intro x hx
      simp only [reads, List.mem_cons] at hx
      rcases hx with rfl | hx
      · cases e with
        | none => exact Or.inl rfl
        | some err =>
          right
          simp [Event.failedRead] at hev
          simp [hev]
      · exact ih hl x hx

/-- What the inner loop leaves behind: it only appends calls; it leaves by `return`
exactly when the last call failed, and then `e` is that error; otherwise no call it
made failed. -/
theorem walkRows_spec {τ : Type} (t : Types) (fn : Callback τ) (bytes : List Nat) (count : Nat)
    (fuel i : Nat) (c : τ) (e : Option GoError) (log : List Event) :
    ∃ l, (walkRows t fn bytes count fuel i c e log).log = log ++ l ∧
      (∀ ev ∈ l, ev.isCall = true) ∧
      (((walkRows t fn bytes count fuel i c e log).exit ≠ RowsExit.returned ∧
          ∀ ev ∈ l, ev.failedCall = false) ∨
        ((walkRows t fn bytes count fuel i c e log).exit = RowsExit.returned ∧
          ∃ pre k o s err, l = pre ++ [Event.call k o s (some err)] ∧
            (∀ ev ∈ pre, ev.failedCall = false) ∧
            (walkRows t fn bytes count fuel i c e log).e = some err)) := by
  induction fuel generalizing i c e log with
  | zero =>
    unfold walkRows
    split_ifs <;> exact ⟨[], by simp⟩
  | succ fuel ih =>
    unfold walkRows
    by_cases hi : i + t.NeedleMapEntrySize ≤ count
    · simp only [hi, if_true]
      generalize hrec : IdxFileEntry t (slice bytes i (i + t.NeedleMapEntrySize)) = rec3
      generalize hout : fn c rec3.1 rec3.2.1 rec3.2.2 = out
      cases hoe : out.2 with
      | some err =>
        refine ⟨[Event.call rec3.1 rec3.2.1 rec3.2.2 (some err)], by simp, by simp [Event.isCall], ?_⟩
        right
        exact ⟨by simp, [], rec3.1, rec3.2.1, rec3.2.2, err, by simp, by simp, by simp⟩
      | none =>
        simp only [ne_eq, not_true_eq_false, if_false]
        obtain ⟨l, hl, hcall, hcase⟩ := ih (i + t.NeedleMapEntrySize) out.1 none
          (log ++ [Event.call rec3.1 rec3.2.1 rec3.2.2 none])
        refine ⟨Event.call rec3.1 rec3.2.1 rec3.2.2 none :: l, by simp [hl], ?_, ?_⟩
        · intro ev hev
          simp only [List.mem_cons] at hev
          rcases hev with rfl | hev
          · rfl
          · exact hcall ev hev
        · rcases hcase with ⟨hne, hok⟩ | ⟨heq, pre, k, o, s, err, hl2, hpre, he⟩
          · left
            refine ⟨hne, ?_⟩
            intro ev hev
            simp only [List.mem_cons] at hev
            rcases hev with rfl | hev
            · rfl
            · exact hok ev hev
          · right
            refine ⟨heq, Event.call rec3.1 rec3.2.1 rec3.2.2 none :: pre, k, o, s, err,
              by simp [hl2], ?_, he⟩
            intro ev hev
            simp only [List.mem_cons] at hev
            rcases hev with rfl | hev
            · rfl
            · exact hpre ev hev
    · simp only [hi, if_false]
      exact ⟨[], by simp⟩

theorem failedRead_of_isCall (ev : Event) (h : ev.isCall = true) : ev.failedRead = false := by
  cases ev with
  | read off n e => simp [Event.isCall] at h
  | call k o s e => rfl

/-- The outer loop keeps the invariant of the callback errors: if no call in the log
has failed on entry, then on exit either none has, or the last event is a failed call
and the walk has returned its error. -/
theorem walkLoop_call_inv {σ τ : Type} (t : Types) (r : ReaderAt σ) (fn : Callback τ)
    (inner fuel : Nat) (s : σ) (c : τ) (ro : Nat) (bytes : List Nat) (e : Option GoError)
    (log : List Event) (hlog : ∀ ev ∈ log, ev.failedCall = false) :
    (∀ ev ∈ (walkLoop t r fn inner fuel s c ro bytes e log).log, ev.failedCall = false) ∨
    ∃ pre k o sz err,
      (walkLoop t r fn inner fuel s c ro bytes e log).log = pre ++ [Event.call k o sz (some err)] ∧
      (∀ ev ∈ pre, ev.failedCall = false) ∧
      (walkLoop t r fn inner fuel s c ro bytes e log).status = Status.returned (some err) := by
  induction fuel generalizing s c ro bytes e log with
  | zero =>
    left
    unfold walkLoop
    split_ifs <;> simpa using hlog
  | succ fuel ih =>
    unfold walkLoop
    split_ifs with hcond
    · obtain ⟨l, hl, -, hcase⟩ := walkRows_spec t fn bytes bytes.length inner 0 c e log
      generalize walkRows t fn bytes bytes.length inner 0 c e log = rows at hl hcase ⊢
      simp only
      rcases hcase with ⟨hne, hok⟩ | ⟨heq, pre, k, o, sz, err, hl2, hpre, he⟩
      · have hall : ∀ ev ∈ rows.log, ev.failedCall = false := by
          intro ev hev
          rw [hl, List.mem_append] at hev
          exact hev.elim (hlog ev) (hok ev)
        cases hx : rows.exit with
        | outOfFuel => left; simpa using hall
        | returned => exact absurd hx hne
        | done =>
          simp only
          split_ifs with heof
          · left; simpa using hall
          · apply ih
            intro ev hev
            rw [List.mem_append] at hev
            rcases hev with hev | hev
            · exact hall ev hev
            · simp only [List.mem_singleton] at hev
              subst hev
              rfl
      · right
        rw [heq]
        refine ⟨log ++ pre, k, o, sz, err, by simp [hl, hl2], ?_, by simp [he]⟩
        intro ev hev
        rw [List.mem_append] at hev
        exact hev.elim (hlog ev) (hpre ev)
    · left; simpa using hlog

/-- The outer loop and read errors: entered with a log that has no failed read except
possibly the last event, whose error is then the current `e`, it leaves a log with no
failed read, or one whose last event is the failed read, having returned that error. -/
theorem walkLoop_read_inv {σ τ : Type} (t : Types) (r : ReaderAt σ) (fn : Callback τ)
    (inner fuel : Nat) (s : σ) (c : τ) (ro : Nat) (bytes : List Nat) (e : Option GoError)
    (log : List Event)
    (hlog : (∀ ev ∈ log, ev.failedRead = false) ∨
      ∃ pre off n err, log = pre ++ [Event.read off n (some err)] ∧ err ≠ GoError.EOF ∧
        (∀ ev ∈ pre, ev.failedRead = false) ∧ e = some err) :
    (∀ ev ∈ (walkLoop t r fn inner fuel s c ro bytes e log).log, ev.failedRead = false) ∨
    ∃ pre off n err,
      (walkLoop t r fn inner fuel s c ro bytes e log).log = pre ++ [Event.read off n (some err)] ∧
      err ≠ GoError.EOF ∧ (∀ ev ∈ pre, ev.failedRead = false) ∧
      (walkLoop t r fn inner fuel s c ro bytes e log).status = Status.returned (some err) := by
  induction fuel generalizing s c ro bytes e log with
  | zero =>
    unfold walkLoop
    split_ifs with hcond
    · rcases hlog with h | ⟨pre, off, n, err, h1, h2, h3, h4⟩
      · left; simpa using h
      · subst h4
        rcases hcond with ⟨_, h⟩ | h
        · exact absurd h (by simp)
        · exact absurd (Option.some.inj h) h2
    · rcases hlog with h | ⟨pre, off, n, err, h1, h2, h3, h4⟩
      · left; simpa using h
      · right
        exact ⟨pre, off, n, err, by simpa using h1, h2, h3, by simp [h4]⟩
  | succ fuel ih =>
    unfold walkLoop
    split_ifs with hcond
    · have hclean : ∀ ev ∈ log, ev.failedRead = false := by
        rcases hlog with h | ⟨pre, off, n, err, h1, h2, h3, h4⟩
        · exact h
        · subst h4
          rcases hcond with ⟨_, h⟩ | h
          · exact absurd h (by simp)
          · exact absurd (Option.some.inj h) h2
      obtain ⟨l, hl, hcall, -⟩ := walkRows_spec t fn bytes bytes.length inner 0 c e log
      generalize walkRows t fn bytes bytes.length inner 0 c e log = rows at hl ⊢
      simp only
      have hall : ∀ ev ∈ rows.log, ev.failedRead = false := by
        intro ev hev
        rw [hl, List.mem_append] at hev
        rcases hev with hev | hev
        · exact hclean ev hev
        · exact failedRead_of_isCall ev (hcall ev hev)
      cases hx : rows.exit with
      | outOfFuel => left; simpa using hall
      | returned => left; simpa using hall
      | done =>
        simp only
        split_ifs with heof
        · left; simpa using hall
        · apply ih
          generalize r.ReadAt s (t.NeedleMapEntrySize * RowsToRead) ro = rd
          cases hrd : rd.2.2 with
          | none =>
            left
            intro ev hev
            rw [List.mem_append] at hev
            rcases hev with hev | hev
            · exact hall ev hev
            · simp only [List.mem_singleton] at hev
              subst hev
              rfl
          | some err =>
            by_cases herr : err = GoError.EOF
            · left
              intro ev hev
              rw [List.mem_append] at hev
              rcases hev with hev | hev
              · exact hall ev hev
              · simp only [List.mem_singleton] at hev
                subst hev
                simp [Event.failedRead, herr]
            · right
              exact ⟨rows.log, ro, rd.2.1.length, err, rfl, herr, hall, rfl⟩
    · rcases hlog with h | ⟨pre, off, n, err, h1, h2, h3, h4⟩
      · left; simpa using h
      · right
        exact ⟨pre, off, n, err, by simpa using h1, h2, h3, by simp [h4]⟩

theorem getElem?_append_singleton_of_prefix {α : Type} (pre : List α) (x z : α) (P : α → Prop)
    (hpre : ∀ y ∈ pre, ¬ P y) (k : Nat) (hz : (pre ++ [x])[k]? = some z) (hP : P z) :
    k = pre.length ∧ z = x := by
  by_cases hk : k < pre.length
  · rw [List.getElem?_append_left hk] at hz
    exact absurd hP (hpre z (List.getElem?_mem hz))
  · rw [List.getElem?_append_right (Nat.le_of_not_lt hk)] at hz
    cases hd : k - pre.length with
    | zero =>
      rw [hd] at hz
      simp at hz
      exact ⟨by omega, hz.symm⟩
    | succ n =>
      rw [hd] at hz
      simp at hz

/-- C2. A failing callback stops the walk: if the call number `k + 1` to `fn` (counting
from one) returns an error, then `WalkIndexFile` has returned exactly that error, `fn`
has been called exactly `k + 1` times, and that call is the last thing the walk did, so
no later record of this or of a later batch is visited and nothing more is read. -/
theorem WalkIndexFile_stops_at_callback_error {σ τ : Type} (t : Types) (r : ReaderAt σ) (fn : Callback τ)
    (fuel : Nat) (s : σ) (c : τ) (k : Nat) (rec3 : Nat × Nat × Nat) (err : GoError)
    (hk : (calls (WalkIndexFile t r fn fuel s c).log)[k]? = some (rec3, some err)) :
    (WalkIndexFile t r fn fuel s c).status = Status.returned (some err) ∧
    (calls (WalkIndexFile t r fn fuel s c).log).length = k + 1 ∧
    (WalkIndexFile t r fn fuel s c).log.getLast? =
      some (Event.call rec3.1 rec3.2.1 rec3.2.2 (some err)) := by
  unfold WalkIndexFile at hk ⊢
  simp only at hk ⊢
  generalize r.ReadAt s (t.NeedleMapEntrySize * RowsToRead) 0 = rd at hk ⊢
  have hinit : ∀ ev ∈ [Event.read 0 rd.2.1.length rd.2.2], ev.failedCall = false := by
    intro ev hev
    simp only [List.mem_singleton] at hev
    subst hev
    rfl
  have hinv := walkLoop_call_inv t r fn fuel fuel rd.1 c (0 + rd.2.1.length) rd.2.1 rd.2.2 _ hinit
  generalize walkLoop t r fn fuel fuel rd.1 c (0 + rd.2.1.length) rd.2.1 rd.2.2
    [Event.read 0 rd.2.1.length rd.2.2] = w at hk hinv ⊢
  rcases hinv with hok | ⟨pre, k', o, sz, err', hlog, hpre, hst⟩
  · have := calls_ok_of_no_failedCall w.log hok _ (List.getElem?_mem hk)
    simp at this
  · rw [hlog, calls_append] at hk
    have hcp := calls_ok_of_no_failedCall pre hpre
    obtain ⟨hk1, hk2⟩ := getElem?_append_singleton_of_prefix (calls pre) ((k', o, sz), some err')
      (rec3, some err) (fun x => x.2 ≠ none) (fun y hy h => h (hcp y hy)) k
      (by simpa [calls] using hk) (by simp)
    have herr : err = err' := by
      have := congrArg Prod.snd hk2
      simpa using this
    have hrec : rec3 = (k', o, sz) := congrArg Prod.fst hk2
    subst herr hrec
    refine ⟨hst, ?_, ?_⟩
    · rw [hlog, calls_append, hk1]
      simp [calls]
    · rw [hlog]
      simp

/-- C3. A read error other than `io.EOF` ends the walk: if the read number `k + 1` returns
such an error, then `WalkIndexFile` has returned that very error, exactly `k + 1` reads
were made, and the failed read is the last thing the walk did: it is not retried and
nothing is read or visited after it. -/
theorem WalkIndexFile_propagates_read_error {σ τ : Type} (t : Types) (r : ReaderAt σ) (fn : Callback τ)
    (fuel : Nat) (s : σ) (c : τ) (k off : Nat) (err : GoError)
    (hk : (reads (WalkIndexFile t r fn fuel s c).log)[k]? = some (off, some err))
    (hne : err ≠ GoError.EOF) :
    (WalkIndexFile t r fn fuel s c).status = Status.returned (some err) ∧
    (reads (WalkIndexFile t r fn fuel s c).log).length = k + 1 ∧
    ∃ n, (WalkIndexFile t r fn fuel s c).log.getLast? = some (Event.read off n (some err)) := by
  unfold WalkIndexFile at hk ⊢
  simp only at hk ⊢
  generalize r.ReadAt s (t.NeedleMapEntrySize * RowsToRead) 0 = rd at hk ⊢
  have hinit : (∀ ev ∈ [Event.read 0 rd.2.1.length rd.2.2], ev.failedRead = false) ∨
      ∃ pre off n err, [Event.read 0 rd.2.1.length rd.2.2] = pre ++ [Event.read off n (some err)] ∧
        err ≠ GoError.EOF ∧ (∀ ev ∈ pre, ev.failedRead = false) ∧ rd.2.2 = some err := by
    cases hrd : rd.2.2 with
    | none =>
      left
      intro ev hev
      simp only [List.mem_singleton] at hev
      subst hev
      rfl
    | some e0 =>
      by_cases he0 : e0 = GoError.EOF
      · left
        intro ev hev
        simp only [List.mem_singleton] at hev
        subst hev
        simp [Event.failedRead, he0]
      · right
        exact ⟨[], 0, rd.2.1.length, e0, rfl, he0, by simp, rfl⟩
  have hinv := walkLoop_read_inv t r fn fuel fuel rd.1 c (0 + rd.2.1.length) rd.2.1 rd.2.2 _ hinit
  generalize walkLoop t r fn fuel fuel rd.1 c (0 + rd.2.1.length) rd.2.1 rd.2.2
    [Event.read 0 rd.2.1.length rd.2.2] = w at hk hinv ⊢
  rcases hinv with hok | ⟨pre, off', n, err', hlog, hne', hpre, hst⟩
  · have := reads_ok_of_no_failedRead w.log hok _ (List.getElem?_mem hk)
    simp [hne] at this
  · rw [hlog, reads_append] at hk
    have hcp := reads_ok_of_no_failedRead pre hpre
    obtain ⟨hk1, hk2⟩ := getElem?_append_singleton_of_prefix (reads pre) (off', some err')
      (off, some err) (fun x => x.2 ≠ none ∧ x.2 ≠ some GoError.EOF)
      (fun y hy h => (hcp y hy).elim h.1 h.2) k
      (by simpa [reads] using hk) (by simp [hne])
    have herr : err = err' := by
      have := congrArg Prod.snd hk2
      simpa using this
    have hoff : off = off' := congrArg Prod.fst hk2
    subst herr hoff
    refine ⟨hst, ?_, n, ?_⟩
    · rw [hlog, reads_append, hk1]
      simp [reads]
    · rw [hlog]
      simp

/-- Records of two bytes, callback failing on its second call: the walk over seven bytes
stops there. -/
theorem WalkIndexFile_stops_at_callback_error_witness :
    (calls (WalkIndexFile types2 (contentReader false) errAtSecond 5
        [1, 2, 3, 4, 5, 6, 7] 0).log)[1]? = some ((3, 4, 0), some (GoError.mk "stop")) ∧
    (WalkIndexFile types2 (contentReader false) errAtSecond 5 [1, 2, 3, 4, 5, 6, 7] 0).status
      = Status.returned (some (GoError.mk "stop")) ∧
    (calls (WalkIndexFile types2 (contentReader false) errAtSecond 5
        [1, 2, 3, 4, 5, 6, 7] 0).log).length = 1 + 1 :=
  have h : (calls (WalkIndexFile types2 (contentReader false) errAtSecond 5
      [1, 2, 3, 4, 5, 6, 7] 0).log)[1]? = some ((3, 4, 0), some (GoError.mk "stop")) := by
    decide
  ⟨h, (WalkIndexFile_stops_at_callback_error types2 (contentReader false) errAtSecond 5
      [1, 2, 3, 4, 5, 6, 7] 0 1 (3, 4, 0) (GoError.mk "stop") h).1,
    (WalkIndexFile_stops_at_callback_error types2 (contentReader false) errAtSecond 5
      [1, 2, 3, 4, 5, 6, 7] 0 1 (3, 4, 0) (GoError.mk "stop") h).2.1⟩

/-- A reader that fails on its second read: the walk returns that error after two
reads. -/
theorem WalkIndexFile_propagates_read_error_witness :
    (reads (WalkIndexFile types2 brokenReader errAtSecond 5 0 7).log)[1]?
      = some (4, some (GoError.mk "io failure")) ∧
    (WalkIndexFile types2 brokenReader errAtSecond 5 0 7).status
      = Status.returned (some (GoError.mk "io failure")) ∧
    (reads (WalkIndexFile types2 brokenReader errAtSecond 5 0 7).log).length = 1 + 1 :=
  have h : (reads (WalkIndexFile types2 brokenReader errAtSecond 5 0 7).log)[1]?
      = some (4, some (GoError.mk "io failure")) := by decide
  ⟨h, (WalkIndexFile_propagates_read_error types2 brokenReader errAtSecond 5 0 7 1 4
      (GoError.mk "io failure") h (by decide)).1,
    (WalkIndexFile_propagates_read_error types2 brokenReader errAtSecond 5 0 7 1 4
      (GoError.mk "io failure") h (by decide)).2.1⟩

theorem length_flatten_of_width (E : Nat) (recs : List (List Nat))
    (h : ∀ r ∈ recs, r.length = E) : recs.flatten.length = recs.length * E := by
  induction recs with
  | nil => simp
  | cons r rs ih =>
    have h1 := h r (List.mem_cons_self _ _)
    have h2 := ih (fun x hx => h x (List.mem_cons_of_mem _ hx))
    simp only [List.flatten_cons, List.length_append, List.length_cons, h1, h2]
    rw [Nat.add_mul]
    omega

theorem slice_middle (pre r rest : List Nat) :
    slice (pre ++ (r ++ rest)) pre.length (pre.length + r.length) = r := by
  unfold slice
  rw [List.take_append, List.take_left, List.drop_left]

/-- The inner loop over a buffer that holds whole records and then a fragment: with a
callback that never fails and enough fuel it calls `fn` on each record and ends. -/
theorem walkRows_records {τ : Type} (t : Types) (fn : Callback τ)
    (hfn : ∀ c k o s, (fn c k o s).2 = none)
    (recs : List (List Nat)) (frag : List Nat)
    (hrecs : ∀ r ∈ recs, r.length = t.NeedleMapEntrySize)
    (hfrag : frag.length < t.NeedleMapEntrySize)
    (pre : List Nat) (fuel : Nat) (hfuel : recs.length ≤ fuel) (c : τ) (e : Option GoError)
    (log : List Event) :
    (walkRows t fn (pre ++ (recs.flatten ++ frag)) (pre ++ (recs.flatten ++ frag)).length
        fuel pre.length c e log).exit = RowsExit.done ∧
    (walkRows t fn (pre ++ (recs.flatten ++ frag)) (pre ++ (recs.flatten ++ frag)).length
        fuel pre.length c e log).log = log ++ callEvents t recs ∧
    (walkRows t fn (pre ++ (recs.flatten ++ frag)) (pre ++ (recs.flatten ++ frag)).length
        fuel pre.length c e log).e = if recs = [] then e else none := by
  induction recs generalizing pre fuel c e log with
  | nil =>
    have hno : ¬ pre.length + t.NeedleMapEntrySize ≤ (pre ++ ([].flatten ++ frag)).length := by
      simp; omega
    cases fuel <;> (unfold walkRows; simp only [hno, if_false]; simp [callEvents])
  | cons r rs ih =>
    have hr := hrecs r (List.mem_cons_self _ _)
    have hrs : ∀ x ∈ rs, x.length = t.NeedleMapEntrySize :=
      fun x hx => hrecs x (List.mem_cons_of_mem _ hx)
    cases fuel with
    | zero => simp at hfuel
    | succ fuel =>
      have hyes : pre.length + t.NeedleMapEntrySize ≤ (pre ++ ((r :: rs).flatten ++ frag)).length := by
        simp; omega
      unfold walkRows
      simp only [hyes, if_true, hfn, ne_eq, not_true_eq_false, if_false]
      have hdata : pre ++ ((r :: rs).flatten ++ frag) = (pre ++ r) ++ (rs.flatten ++ frag) := by
        simp
      have hslice : slice (pre ++ ((r :: rs).flatten ++ frag)) pre.length
          (pre.length + t.NeedleMapEntrySize) = r := by
        rw [← hr]
        have := slice_middle pre r (rs.flatten ++ frag)
        simpa using this
      have hidx : pre.length + t.NeedleMapEntrySize = (pre ++ r).length := by
        simp [hr]
      rw [hslice, hidx, hdata]
      obtain ⟨h1, h2, h3⟩ := ih hrs (pre ++ r) fuel (by simpa using hfuel) (fn c (IdxFileEntry t r).1 (IdxFileEntry t r).2.1 (IdxFileEntry t r).2.2).1 none
        (log ++ [Event.call (IdxFileEntry t r).1 (IdxFileEntry t r).2.1 (IdxFileEntry t r).2.2 none])
      refine ⟨h1, ?_, ?_⟩
      · rw [h2]; simp [callEvents]
      · rw [h3]; simp

theorem calls_callEvents (t : Types) (recs : List (List Nat)) :
    calls (callEvents t recs) = recs.map (fun r => (IdxFileEntry t r, none)) := by
  induction recs with
  | nil => rfl
  | cons r rs ih =>
    simp only [callEvents, List.map_cons, calls] at ih ⊢
    rw [ih]

theorem contentReader_state (eager : Bool) (content : List Nat) (n off : Nat) :
    ((contentReader eager).ReadAt content n off).1 = content := rfl

theorem contentReader_data (eager : Bool) (content : List Nat) (n off : Nat) :
    ((contentReader eager).ReadAt content n off).2.1 = (content.drop off).take n := rfl

theorem contentReader_err (eager : Bool) (content : List Nat) (n off : Nat) :
    ((contentReader eager).ReadAt content n off).2.2 =
      if ((content.drop off).take n).length < n then some GoError.EOF
      else if eager = true ∧ off + n = content.length then some GoError.EOF
      else none := rfl

/-- The outer loop over a content reader: entered after the read at offset
`pre.length`, where whole records and then a fragment remain, it calls `fn` on each
remaining record in order and returns `nil`. -/
theorem walkLoop_content {τ : Type} (t : Types) (eager : Bool) (fn : Callback τ)
    (hfn : ∀ c k o s, (fn c k o s).2 = none) (inner : Nat) (hinner : RowsToRead ≤ inner)
    (recs : List (List Nat)) (frag pre content bytes : List Nat) (e : Option GoError)
    (fuel : Nat) (c : τ) (log : List Event)
    (hrecs : ∀ r ∈ recs, r.length = t.NeedleMapEntrySize)
    (hfrag : frag.length < t.NeedleMapEntrySize)
    (hcontent : content = pre ++ (recs.flatten ++ frag))
    (hbytes : bytes = (recs.flatten ++ frag).take (t.NeedleMapEntrySize * RowsToRead))
    (he : e = if bytes.length < t.NeedleMapEntrySize * RowsToRead then some GoError.EOF
          else if eager = true ∧ pre.length + t.NeedleMapEntrySize * RowsToRead = content.length
            then some GoError.EOF else none)
    (hfuel : recs.length + 1 ≤ fuel) :
    (walkLoop t (contentReader eager) fn inner fuel content c (pre.length + bytes.length)
        bytes e log).status = Status.returned none ∧
    calls (walkLoop t (contentReader eager) fn inner fuel content c (pre.length + bytes.length)
        bytes e log).log = calls log ++ recs.map (fun r => (IdxFileEntry t r, none)) := by
  generalize hlen : recs.length = n
  induction n using Nat.strong_induction_on
    generalizing recs frag pre content bytes e fuel c log with
  | _ n ih =>
    have hE : 0 < t.NeedleMapEntrySize := by omega
    have hflat := length_flatten_of_width t.NeedleMapEntrySize recs hrecs
    obtain ⟨fuel, rfl⟩ : ∃ f, fuel = f + 1 := ⟨fuel - 1, by omega⟩
    by_cases hbig : RowsToRead ≤ recs.length
    · have hAlen : (recs.take RowsToRead).length = RowsToRead := by
        rw [List.length_take]; omega
      have hArecs : ∀ r ∈ recs.take RowsToRead, r.length = t.NeedleMapEntrySize :=
        fun r hr => hrecs r (List.mem_of_mem_take hr)
      have hRrecs : ∀ r ∈ recs.drop RowsToRead, r.length = t.NeedleMapEntrySize :=
        fun r hr => hrecs r (List.mem_of_mem_drop hr)
      have hAflat : (recs.take RowsToRead).flatten.length = t.NeedleMapEntrySize * RowsToRead := by
        rw [length_flatten_of_width t.NeedleMapEntrySize _ hArecs, hAlen, Nat.mul_comm]
      have hsplit : recs.flatten = (recs.take RowsToRead).flatten ++ (recs.drop RowsToRead).flatten := by
        rw [← List.flatten_append, List.take_append_drop]
      have hb : bytes = (recs.take RowsToRead).flatten := by
        rw [hbytes, hsplit, List.append_assoc, ← hAflat, List.take_left]
      have hblen : bytes.length = t.NeedleMapEntrySize * RowsToRead := by rw [hb, hAflat]
      have hBpos : 0 < t.NeedleMapEntrySize * RowsToRead := Nat.mul_pos hE (by decide)
      have he' : e = none ∨ e = some GoError.EOF := by
        rw [he]; split_ifs <;> simp
      have hcond : (bytes.length > 0 ∧ e = none) ∨ e = some GoError.EOF := by
        rcases he' with h | h
        · exact Or.inl ⟨by omega, h⟩
        · exact Or.inr h
      have hAne : recs.take RowsToRead ≠ [] := by
        intro h
        rw [h] at hAlen
        simp [RowsToRead] at hAlen
      have hrows := walkRows_records t fn hfn (recs.take RowsToRead) [] hArecs (by simpa using hE)
        [] inner (by omega) c e log
      simp only [List.nil_append, List.append_nil, List.length_nil, hAne, if_false] at hrows
      rw [← hb] at hrows
      obtain ⟨h1, h2, h3⟩ := hrows
      unfold walkLoop
      rw [if_pos hcond]
      simp only [h1, h2, h3]
      simp only [contentReader_state, contentReader_data, contentReader_err]
      rw [if_neg (by simp : ¬ (none : Option GoError) = some GoError.EOF)]
      have hpl : pre.length + bytes.length = (pre ++ (recs.take RowsToRead).flatten).length := by
        rw [List.length_append, hb]
      have hcontent2 : content = (pre ++ (recs.take RowsToRead).flatten) ++
          ((recs.drop RowsToRead).flatten ++ frag) := by
        rw [hcontent, hsplit]; simp
      have hdrop : List.drop (pre.length + bytes.length) content =
          (recs.drop RowsToRead).flatten ++ frag := by
        rw [hpl, hcontent2, List.drop_left]
      rw [hdrop, hpl]
      have hRlen : (recs.drop RowsToRead).length < n := by
        rw [List.length_drop]; simp only [RowsToRead] at hbig ⊢; omega
      obtain ⟨g1, g2⟩ := ih _ hRlen (recs.drop RowsToRead) frag (pre ++ (recs.take RowsToRead).flatten)
        content _ _ fuel (walkRows t fn bytes bytes.length inner 0 c e log).c
        (log ++ callEvents t (List.take RowsToRead recs) ++
          [Event.read (pre ++ (recs.take RowsToRead).flatten).length
            (List.take (t.NeedleMapEntrySize * RowsToRead) ((recs.drop RowsToRead).flatten ++ frag)).length
            (if (List.take (t.NeedleMapEntrySize * RowsToRead)
                ((recs.drop RowsToRead).flatten ++ frag)).length < t.NeedleMapEntrySize * RowsToRead
              then some GoError.EOF
              else if eager = true ∧ (pre ++ (recs.take RowsToRead).flatten).length +
                  t.NeedleMapEntrySize * RowsToRead = content.length
                then some GoError.EOF else none)])
        hRrecs hfrag hcontent2 rfl rfl (by omega) rfl
      refine ⟨g1, ?_⟩
      rw [g2]
      simp only [calls_append, calls_callEvents, calls, List.append_nil, List.append_assoc]
      rw [← List.map_append, List.take_append_drop]
    · have hmul : (recs.length + 1) * t.NeedleMapEntrySize ≤ RowsToRead * t.NeedleMapEntrySize :=
        Nat.mul_le_mul_right _ (by omega)
      have hshort : (recs.flatten ++ frag).length < t.NeedleMapEntrySize * RowsToRead := by
        rw [List.length_append, hflat, Nat.mul_comm t.NeedleMapEntrySize]
        rw [Nat.add_mul] at hmul
        omega
      have hb : bytes = recs.flatten ++ frag := by
        rw [hbytes, List.take_of_length_le (Nat.le_of_lt hshort)]
      have he' : e = some GoError.EOF := by
        rw [he, if_pos (by rw [hb]; exact hshort)]
      have hrows := walkRows_records t fn hfn recs frag hrecs hfrag [] inner (by omega) c e log
      simp only [List.nil_append, List.length_nil] at hrows
      rw [← hb] at hrows
      obtain ⟨h1, h2, h3⟩ := hrows
      unfold walkLoop
      rw [if_pos (Or.inr he')]
      simp only [h1, h2, h3]
      by_cases hnil : recs = []
      · rw [if_pos hnil, if_pos he']
        subst hnil
        simp [callEvents, calls_append, calls]
      · rw [if_neg hnil, if_neg (by simp : ¬ (none : Option GoError) = some GoError.EOF)]
        simp only [contentReader_state, contentReader_data, contentReader_err]
        have hpl : pre.length + bytes.length = content.length := by
          rw [hcontent, List.length_append, hb]
        have hcontent2 : content = content ++ (([] : List (List Nat)).flatten ++ []) := by simp
        have hdrop : List.drop (pre.length + bytes.length) content =
            ([] : List (List Nat)).flatten ++ [] := by
          rw [hpl]; simp
        rw [hdrop, hpl]
        have hnpos : 0 < n := by
          rw [← hlen]; exact List.length_pos.mpr hnil
        obtain ⟨g1, g2⟩ := ih 0 hnpos [] [] content content _ _ fuel
          (walkRows t fn bytes bytes.length inner 0 c e log).c
          (log ++ callEvents t recs ++
            [Event.read content.length
              (List.take (t.NeedleMapEntrySize * RowsToRead)
                (([] : List (List Nat)).flatten ++ [])).length
              (if (List.take (t.NeedleMapEntrySize * RowsToRead)
                  (([] : List (List Nat)).flatten ++ [])).length < t.NeedleMapEntrySize * RowsToRead
                then some GoError.EOF
                else if eager = true ∧ content.length +
                    t.NeedleMapEntrySize * RowsToRead = content.length
                  then some GoError.EOF else none)])
          (by simp) (by simpa using hE) hcontent2 rfl rfl
          (by simp only [List.length_nil]; omega) rfl
        refine ⟨g1, ?_⟩
        rw [g2]
        simp only [calls_append, calls_callEvents, calls, List.append_nil, List.map_nil]

/-- C1. Index scan completeness: over a source whose content is `N` whole records
followed by a fragment shorter than one record (possibly empty), and with a callback
that never fails, `WalkIndexFile` returns `nil` (given enough fuel, so it does return),
and the calls to `fn` are exactly the decodings by `IdxFileEntry` of the records, one
per record, in file order.  This holds for every `N`, zero and beyond one batch
included, and for both ways a reader may report the end of the source. -/
theorem WalkIndexFile_complete {τ : Type} (t : Types) (eager : Bool) (fn : Callback τ) (c : τ)
    (recs : List (List Nat)) (frag : List Nat)
    (hrecs : ∀ r ∈ recs, r.length = t.NeedleMapEntrySize)
    (hfrag : frag.length < t.NeedleMapEntrySize)
    (hfn : ∀ c k o s, (fn c k o s).2 = none) :
    ∃ fuel₀, ∀ fuel, fuel₀ ≤ fuel →
      (WalkIndexFile t (contentReader eager) fn fuel (recs.flatten ++ frag) c).status
        = Status.returned none ∧
      calls (WalkIndexFile t (contentReader eager) fn fuel (recs.flatten ++ frag) c).log
        = recs.map (fun r => (IdxFileEntry t r, none)) ∧
      (calls (WalkIndexFile t (contentReader eager) fn fuel (recs.flatten ++ frag) c).log).length
        = recs.length := by
  refine ⟨recs.length + RowsToRead + 1, fun fuel hfuel => ?_⟩
  unfold WalkIndexFile
  simp only [contentReader_state, contentReader_data, contentReader_err]
  obtain ⟨g1, g2⟩ := walkLoop_content t eager fn hfn fuel (by omega) recs frag []
    (recs.flatten ++ frag) _ _ fuel c
    [Event.read 0 (List.take (t.NeedleMapEntrySize * RowsToRead)
        (List.drop 0 (recs.flatten ++ frag))).length
      (if (List.take (t.NeedleMapEntrySize * RowsToRead)
          (List.drop 0 (recs.flatten ++ frag))).length < t.NeedleMapEntrySize * RowsToRead
        then some GoError.EOF
        else if eager = true ∧ 0 + t.NeedleMapEntrySize * RowsToRead = (recs.flatten ++ frag).length
          then some GoError.EOF else none)]
    hrecs hfrag rfl rfl rfl (by omega)
  simp only [List.length_nil, List.drop_zero] at g1 g2 ⊢
  refine ⟨g1, ?_, ?_⟩
  · rw [g2]; simp [calls]
  · rw [g2]; simp [calls]

/-- Two records of two bytes and a fragment of one byte. -/
theorem WalkIndexFile_complete_witness :
    ∃ fuel₀, ∀ fuel, fuel₀ ≤ fuel →
      (WalkIndexFile types2 (contentReader false) (fun c _ _ _ => (c + 1, none)) fuel
        ([[1, 2], [3, 4]].flatten ++ [5]) 0).status = Status.returned none ∧
      calls (WalkIndexFile types2 (contentReader false) (fun c _ _ _ => (c + 1, none)) fuel
        ([[1, 2], [3, 4]].flatten ++ [5]) 0).log
        = [[1, 2], [3, 4]].map (fun r => (IdxFileEntry types2 r, none)) ∧
      (calls (WalkIndexFile types2 (contentReader false) (fun c _ _ _ => (c + 1, none)) fuel
        ([[1, 2], [3, 4]].flatten ++ [5]) 0).log).length = [[1, 2], [3, 4]].length :=
  WalkIndexFile_complete types2 false (fun c _ _ _ => (c + 1, none)) 0 [[1, 2], [3, 4]] [5]
    (by decide) (by decide) (fun _ _ _ _ => rfl)

end idx

/-! ## The string form of a file id -/

namespace needle

theorem digitVal_digitChar (d : Nat) (h : d < 16) : digitVal (digitChar d) = some d := by
  interval_cases d <;> rfl

theorem digitChar_ne_comma (d : Nat) (h : d < 16) : (digitChar d != ',') = true := by
  interval_cases d <;> rfl

theorem parseNat_append_singleton (b : Nat) (l : List Char) (c : Char) :
    parseNat b (l ++ [c]) = parseStep b (parseNat b l) c := by
  simp [parseNat, List.foldl_append]

theorem parseStep_digitChar (b a d : Nat) (hb : b ≤ 16) (hd : d < b) :
    parseStep b (some a) (digitChar d) = some (a * b + d) := by
  simp [parseStep, digitVal_digitChar d (by omega), hd]

theorem parseNat_toDecimal (fuel n : Nat) (h : n < 10 ^ fuel) :
    parseNat 10 (toDecimal fuel n) = some n := by
  induction fuel generalizing n with
  | zero =>
    have : n = 0 := by simpa using h
    subst this
    rfl
  | succ fuel ih =>
    unfold toDecimal
    split_ifs with hn
    · have := parseNat_append_singleton 10 [] (digitChar n)
      simp only [List.nil_append] at this
      rw [this]
      have h0 : parseNat 10 [] = some 0 := rfl
      rw [h0, parseStep_digitChar 10 0 n (by omega) hn]
      simp
    · rw [parseNat_append_singleton, ih (n / 10) (by rw [pow_succ] at h; omega),
        parseStep_digitChar 10 _ _ (by omega) (Nat.mod_lt _ (by omega))]
      congr 1
      omega

theorem toDecimal_ne_nil (fuel n : Nat) : toDecimal (fuel + 1) n ≠ [] := by
  unfold toDecimal
  split_ifs <;> simp

theorem toDecimal_no_comma (fuel n : Nat) : ∀ c ∈ toDecimal fuel n, (c != ',') = true := by
  induction fuel generalizing n with
  | zero => simp [toDecimal]
  | succ fuel ih =>
    unfold toDecimal
    split_ifs with hn
    · intro c hc
      simp only [List.mem_singleton] at hc
      subst hc
      exact digitChar_ne_comma n (by omega)
    · intro c hc
      rw [List.mem_append] at hc
      rcases hc with hc | hc
      · exact ih _ c hc
      · simp only [List.mem_singleton] at hc
        subst hc
        exact digitChar_ne_comma _ (by omega)

theorem parseNat_toHex (width n : Nat) : parseNat 16 (toHex width n) = some (n % 16 ^ width) := by
  induction width generalizing n with
  | zero => simp [toHex, parseNat, Nat.mod_one]
  | succ width ih =>
    unfold toHex
    rw [parseNat_append_singleton, ih, parseStep_digitChar 16 _ _ (by omega) (Nat.mod_lt _ (by omega))]
    congr 1
    rw [pow_succ, Nat.mul_comm (16 ^ width) 16, Nat.mod_mul]
    omega

theorem length_toHex (width n : Nat) : (toHex width n).length = width := by
  induction width generalizing n with
  | zero => rfl
  | succ width ih => simp [toHex, ih]

theorem span_append_cons {α : Type} (p : α → Bool) (l₁ : List α) (a : α) (l₂ : List α)
    (h₁ : ∀ x ∈ l₁, p x = true) (ha : p a = false) :
    (l₁ ++ a :: l₂).span p = (l₁, a :: l₂) := by
  induction l₁ with
  | nil => simp [List.span_eq_take_drop, List.takeWhile, List.dropWhile, ha]
  | cons x l ih =>
    have hx := h₁ x (List.mem_cons_self _ _)
    have := ih (fun y hy => h₁ y (List.mem_cons_of_mem _ hy))
    simp [List.span_eq_take_drop, List.takeWhile, List.dropWhile, hx] at this ⊢
    exact this

end needle

/-! ## The file-id hooks -/

namespace filer_pb

/-- C4. Address round trip: for every address whose volume id and cookie fit 32 bits and
whose key fits 64 bits, `toFileIdObject` parses the string that `toFileIdString`
prints back to the same address, without error; a zero key and a cookie with leading
zero bytes are included. -/
theorem toFileIdObject_toFileIdString (fid : FileId) (hv : fid.VolumeId < 2 ^ 32) (hk : fid.FileKey < 2 ^ 64)
    (hc : fid.Cookie < 2 ^ 32) :
    toFileIdObject needle.specCodec (toFileIdString needle.specCodec fid) = Except.ok fid := by
  have hspan := needle.span_append_cons (fun c => c != ',') (needle.toDecimal 10 fid.VolumeId) ','
    (needle.toHex 16 fid.FileKey ++ needle.toHex 8 fid.Cookie)
    (needle.toDecimal_no_comma 10 fid.VolumeId) (by rfl)
  have hlen : (needle.toHex 16 fid.FileKey ++ needle.toHex 8 fid.Cookie).length = 24 := by
    simp [needle.length_toHex]
  have htake : (needle.toHex 16 fid.FileKey ++ needle.toHex 8 fid.Cookie).take 16
      = needle.toHex 16 fid.FileKey := List.take_left' (needle.length_toHex 16 fid.FileKey)
  have hdrop : (needle.toHex 16 fid.FileKey ++ needle.toHex 8 fid.Cookie).drop 16
      = needle.toHex 8 fid.Cookie := List.drop_left' (needle.length_toHex 16 fid.FileKey)
  have hvid : needle.parseNat 10 (needle.toDecimal 10 fid.VolumeId) = some fid.VolumeId :=
    needle.parseNat_toDecimal 10 fid.VolumeId (by omega)
  have hkey : needle.parseNat 16 (needle.toHex 16 fid.FileKey) = some fid.FileKey := by
    rw [needle.parseNat_toHex, Nat.mod_eq_of_lt (by omega)]
  have hcookie : needle.parseNat 16 (needle.toHex 8 fid.Cookie) = some fid.Cookie := by
    rw [needle.parseNat_toHex, Nat.mod_eq_of_lt (by omega)]
  have hne : needle.toDecimal 10 fid.VolumeId ≠ [] := needle.toDecimal_ne_nil 9 fid.VolumeId
  have hparse : needle.specParse (needle.specString (needle.NewFileId fid.VolumeId fid.FileKey fid.Cookie))
      = Except.ok ⟨fid.VolumeId, fid.FileKey, fid.Cookie⟩ := by
    unfold needle.specParse needle.specString needle.NewFileId
    simp only [String.toList]
    rw [hspan]
    simp only [hne, hlen, htake, hdrop, hvid, hkey, hcookie, ne_eq, not_true_eq_false, or_self,
      if_false, hv, if_true]
  unfold toFileIdObject toFileIdString
  simp only [needle.specCodec, hparse]
  rw [Nat.mod_eq_of_lt hv, Nat.mod_eq_of_lt hk, Nat.mod_eq_of_lt hc]

/-- The address with volume 0, key 0 and cookie 255. -/
theorem toFileIdObject_toFileIdString_witness :
    (0 : Nat) < 2 ^ 32 ∧
    toFileIdObject needle.specCodec
      (toFileIdString needle.specCodec { VolumeId := 0, Cookie := 255, FileKey := 0 })
      = Except.ok { VolumeId := 0, Cookie := 255, FileKey := 0 } :=
  ⟨by decide, toFileIdObject_toFileIdString { VolumeId := 0, Cookie := 255, FileKey := 0 }
    (by decide) (by decide) (by decide)⟩


theorem beforeChunk_idem (n : needle.Codec) (c : FileChunk) :
    beforeChunk n (beforeChunk n c) = beforeChunk n c := by
  unfold beforeChunk
  by_cases h1 : c.FileId = "" <;> by_cases h2 : c.SourceFileId = "" <;>
    cases h3 : toFileIdObject n c.FileId <;> cases h4 : toFileIdObject n c.SourceFileId <;>
    simp [h1, h2, h3, h4]

theorem afterChunk_idem (n : needle.Codec) (c : FileChunk) :
    afterChunk n (afterChunk n c) = afterChunk n c := by
  unfold afterChunk
  cases h1 : c.Fid <;> cases h2 : c.SourceFid <;>
    by_cases h3 : c.FileId = "" <;> by_cases h4 : c.SourceFileId = "" <;>
    simp [h1, h2, h3, h4]

/-- C5. Both hooks are idempotent on every chunk list, whatever the file-id parser and
printer are: applying `BeforeEntrySerialization` (or `AfterEntryDeserialization`) a
second time leaves every chunk, hence its `FileId`, `Fid`, `SourceFileId` and
`SourceFid`, exactly as the first application left it. -/
theorem hooks_idempotent (n : needle.Codec) (chunks : List FileChunk) :
    BeforeEntrySerialization n (BeforeEntrySerialization n chunks)
      = BeforeEntrySerialization n chunks ∧
    AfterEntryDeserialization n (AfterEntryDeserialization n chunks)
      = AfterEntryDeserialization n chunks := by
  unfold BeforeEntrySerialization AfterEntryDeserialization
  simp only [List.map_map]
  constructor
  · apply List.map_congr_left
    intro c _
    exact beforeChunk_idem n c
  · apply List.map_congr_left
    intro c _
    exact afterChunk_idem n c

end filer_pb

/-! ## The replication sink -/

namespace filersink

open filer_pb

theorem withFilerClient_ok {σ β : Type} (env : Env σ) (fs : FilerSink) (s s1 : σ)
    (failed : GoError → β) (fn : σ → Ran σ β) (h : env.connect s fs.grpcAddress = (s1, none)) :
    withFilerClient env fs s failed fn = fn s1 := by
  unfold withFilerClient util.WithCachedGrpcClient
  simp only [h]

theorem withFilerClient_failed {σ β : Type} (env : Env σ) (fs : FilerSink) (s s1 : σ)
    (err : GoError) (failed : GoError → β) (fn : σ → Ran σ β)
    (h : env.connect s fs.grpcAddress = (s1, some err)) :
    withFilerClient env fs s failed fn = ⟨s1, [], failed err⟩ := by
  unfold withFilerClient util.WithCachedGrpcClient
  simp only [h]

theorem assignVolume_log {σ : Type} (env : Env σ) (fs : FilerSink) (s : σ) (dir : String) :
    ∀ c ∈ (assignVolume env fs s dir).log, c.isMeta = false ∧ c.isTransferred = false := by
  unfold assignVolume
  rcases hc : env.connect s fs.grpcAddress with ⟨s1, _ | err⟩
  · rw [withFilerClient_ok env fs s s1 _ _ hc]
    simp only
    split
    · simp [Call.isMeta, Call.isTransferred]
    · split_ifs <;> simp [Call.isMeta, Call.isTransferred]
  · rw [withFilerClient_failed env fs s s1 err _ _ hc]
    simp

theorem fetchAndWrite_log {σ : Type} (env : Env σ) (fs : FilerSink) (s : σ) (c : FileChunk)
    (dir : String) :
    ∀ x ∈ (fetchAndWrite env fs s c dir).log, x.isMeta = false ∧ x.isTransferred = false := by
  unfold fetchAndWrite
  have ha := assignVolume_log env fs
  rcases hr : env.ReadPart s (fileIdString env c) with ⟨s1, err | part⟩
  · simp [Call.isMeta, Call.isTransferred]
  · simp only
    rcases hv : (assignVolume env fs s1 dir).val with ⟨_ | err, fileId, host, auth⟩
    · have key : ∀ (req : UploadRequest), ∀ x ∈ Call.readPart (fileIdString env c) ::
          (assignVolume env fs s1 dir).log ++ [Call.upload req, Call.close part.readCloser],
          x.isMeta = false ∧ x.isTransferred = false := by
        intro req x hx
        simp only [List.mem_cons, List.mem_append, List.not_mem_nil, or_false] at hx
        rcases hx with (rfl | hx) | rfl | rfl
        · exact ⟨rfl, rfl⟩
        · exact ha _ _ _ hx
        · exact ⟨rfl, rfl⟩
        · exact ⟨rfl, rfl⟩
      simp only
      rcases hu : env.Upload _ _ with ⟨s3, err | res⟩
      · exact key _
      · simp only
        split_ifs <;> exact key _
    · simp only
      intro x hx
      simp only [List.mem_cons, List.mem_append, List.not_mem_nil, or_false] at hx
      rcases hx with (rfl | hx) | rfl
      · exact ⟨rfl, rfl⟩
      · exact ha _ _ _ hx
      · exact ⟨rfl, rfl⟩

theorem replicateOneChunk_log_eq {σ : Type} (env : Env σ) (fs : FilerSink) (s : σ)
    (c : FileChunk) (dir : String) :
    (replicateOneChunk env fs s c dir).log = (fetchAndWrite env fs s c dir).log := by
  unfold replicateOneChunk
  simp only
  split <;> rfl

theorem replicateOneChunk_log {σ : Type} (env : Env σ) (fs : FilerSink) (s : σ) (c : FileChunk)
    (dir : String) :
    ∀ x ∈ (replicateOneChunk env fs s c dir).log, x.isMeta = false ∧ x.isTransferred = false := by
  rw [replicateOneChunk_log_eq]
  exact fetchAndWrite_log env fs s c dir

theorem stepTask_start {σ : Type} (env : Env σ) (fs : FilerSink) (dir : String) (p : Pool σ)
    (i : Nat) (chunk : FileChunk) (h : p.tasks i = Task.start chunk) :
    stepTask env fs dir p i =
      { p with
        state := (replicateOneChunk env fs p.state chunk dir).state
        log := p.log ++ (replicateOneChunk env fs p.state chunk dir).log ++
          [Call.transferred chunk (replicateOneChunk env fs p.state chunk dir).val]
        tasks := Function.update p.tasks i
          (match (replicateOneChunk env fs p.state chunk dir).val with
            | Except.error e => Task.setErr e
            | Except.ok replicatedChunk => Task.load (some replicatedChunk)) } := by
  unfold stepTask
  rw [h]

theorem stepTask_setErr {σ : Type} (env : Env σ) (fs : FilerSink) (dir : String) (p : Pool σ)
    (i : Nat) (e : GoError) (h : p.tasks i = Task.setErr e) :
    stepTask env fs dir p i =
      { p with err := some e, tasks := Function.update p.tasks i (Task.load none) } := by
  unfold stepTask
  rw [h]

theorem stepTask_load {σ : Type} (env : Env σ) (fs : FilerSink) (dir : String) (p : Pool σ)
    (i : Nat) (rc : Option FileChunk) (h : p.tasks i = Task.load rc) :
    stepTask env fs dir p i =
      { p with tasks := Function.update p.tasks i (Task.store p.replicatedChunks rc) } := by
  unfold stepTask
  rw [h]

theorem stepTask_store {σ : Type} (env : Env σ) (fs : FilerSink) (dir : String) (p : Pool σ)
    (i : Nat) (read : List (Option FileChunk)) (rc : Option FileChunk)
    (h : p.tasks i = Task.store read rc) :
    stepTask env fs dir p i =
      { p with replicatedChunks := read ++ [rc],
               tasks := Function.update p.tasks i Task.done } := by
  unfold stepTask
  rw [h]

theorem stepTask_done {σ : Type} (env : Env σ) (fs : FilerSink) (dir : String) (p : Pool σ)
    (i : Nat) (h : p.tasks i = Task.done) : stepTask env fs dir p i = p := by
  unfold stepTask
  rw [h]

theorem stepTask_other {σ : Type} (env : Env σ) (fs : FilerSink) (dir : String) (p : Pool σ)
    (i j : Nat) (hj : j ≠ i) : (stepTask env fs dir p i).tasks j = p.tasks j := by
  cases h : p.tasks i with
  | start chunk => rw [stepTask_start env fs dir p i chunk h]; exact Function.update_noteq hj _ _
  | setErr e => rw [stepTask_setErr env fs dir p i e h]; exact Function.update_noteq hj _ _
  | load rc => rw [stepTask_load env fs dir p i rc h]; exact Function.update_noteq hj _ _
  | store read rc =>
    rw [stepTask_store env fs dir p i read rc h]; exact Function.update_noteq hj _ _
  | done => rw [stepTask_done env fs dir p i h]

theorem stepTask_done_stays {σ : Type} (env : Env σ) (fs : FilerSink) (dir : String)
    (p : Pool σ) (i j : Nat) (h : p.tasks j = Task.done) :
    (stepTask env fs dir p i).tasks j = Task.done := by
  by_cases hj : j = i
  · subst hj
    rw [stepTask_done env fs dir p j h, h]
  · rw [stepTask_other env fs dir p i j hj, h]

/-- How far a goroutine is from its end, in statements. -/
theorem stepTask_progress {σ : Type} (env : Env σ) (fs : FilerSink) (dir : String)
    (p : Pool σ) (i : Nat) :
    (∀ e, p.tasks i = Task.setErr e → (stepTask env fs dir p i).tasks i = Task.load none) ∧
    (∀ rc, p.tasks i = Task.load rc →
      (stepTask env fs dir p i).tasks i = Task.store p.replicatedChunks rc) ∧
    (∀ read rc, p.tasks i = Task.store read rc →
      (stepTask env fs dir p i).tasks i = Task.done) ∧
    (∀ chunk, p.tasks i = Task.start chunk →
      (∃ e, (stepTask env fs dir p i).tasks i = Task.setErr e) ∨
      (∃ rc, (stepTask env fs dir p i).tasks i = Task.load rc)) := by
  refine ⟨?_, ?_, ?_, ?_⟩
  · intro e h
    rw [stepTask_setErr env fs dir p i e h]
    exact Function.update_same _ _ _
  · intro rc h
    rw [stepTask_load env fs dir p i rc h]
    exact Function.update_same _ _ _
  · intro read rc h
    rw [stepTask_store env fs dir p i read rc h]
    exact Function.update_same _ _ _
  · intro chunk h
    rw [stepTask_start env fs dir p i chunk h]
    simp only [Function.update_same]
    split
    · exact Or.inl ⟨_, rfl⟩
    · exact Or.inr ⟨_, rfl⟩

theorem finishTask_done {σ : Type} (env : Env σ) (fs : FilerSink) (dir : String)
    (p : Pool σ) (i : Nat) : (finishTask env fs dir p i).tasks i = Task.done := by
  unfold finishTask
  have key3 : ∀ q : Pool σ, (∃ read rc, q.tasks i = Task.store read rc) ∨ q.tasks i = Task.done →
      (stepTask env fs dir q i).tasks i = Task.done := by
    rintro q (⟨read, rc, h⟩ | h)
    · exact (stepTask_progress env fs dir q i).2.2.1 read rc h
    · exact stepTask_done_stays env fs dir q i i h
  have key2 : ∀ q : Pool σ, (∃ rc, q.tasks i = Task.load rc) ∨
      (∃ read rc, q.tasks i = Task.store read rc) ∨ q.tasks i = Task.done →
      (stepTask env fs dir (stepTask env fs dir q i) i).tasks i = Task.done := by
    rintro q (⟨rc, h⟩ | h)
    · exact key3 _ (Or.inl ⟨_, _, (stepTask_progress env fs dir q i).2.1 rc h⟩)
    · exact stepTask_done_stays env fs dir _ i i (key3 q h)
  have key1 : ∀ q : Pool σ, (∃ e, q.tasks i = Task.setErr e) ∨ (∃ rc, q.tasks i = Task.load rc) ∨
      (∃ read rc, q.tasks i = Task.store read rc) ∨ q.tasks i = Task.done →
      (stepTask env fs dir (stepTask env fs dir (stepTask env fs dir q i) i) i).tasks i
        = Task.done := by
    rintro q (⟨e, h⟩ | h)
    · exact key2 _ (Or.inl ⟨_, (stepTask_progress env fs dir q i).1 e h⟩)
    · exact stepTask_done_stays env fs dir _ i i (key2 q h)
  cases h : p.tasks i with
  | start chunk =>
    rcases (stepTask_progress env fs dir p i).2.2.2 chunk h with ⟨e, he⟩ | ⟨rc, hrc⟩
    · exact key1 _ (Or.inl ⟨e, he⟩)
    · exact key1 _ (Or.inr (Or.inl ⟨rc, hrc⟩))
  | setErr e => exact stepTask_done_stays env fs dir _ i i (key1 p (Or.inl ⟨e, h⟩))
  | load rc => exact stepTask_done_stays env fs dir _ i i (key1 p (Or.inr (Or.inl ⟨rc, h⟩)))
  | store read rc =>
    exact stepTask_done_stays env fs dir _ i i (key1 p (Or.inr (Or.inr (Or.inl ⟨read, rc, h⟩))))
  | done => exact stepTask_done_stays env fs dir _ i i (key1 p (Or.inr (Or.inr (Or.inr h))))

theorem finishTask_done_stays {σ : Type} (env : Env σ) (fs : FilerSink) (dir : String)
    (p : Pool σ) (i j : Nat) (h : p.tasks j = Task.done) :
    (finishTask env fs dir p i).tasks j = Task.done := by
  unfold finishTask
  exact stepTask_done_stays env fs dir _ i j (stepTask_done_stays env fs dir _ i j
    (stepTask_done_stays env fs dir _ i j (stepTask_done_stays env fs dir p i j h)))

theorem foldl_stepTask_done_stays {σ : Type} (env : Env σ) (fs : FilerSink) (dir : String)
    (l : List Nat) (p : Pool σ) (j : Nat) (h : p.tasks j = Task.done) :
    (l.foldl (stepTask env fs dir) p).tasks j = Task.done := by
  induction l generalizing p with
  | nil => exact h
  | cons i l ih => exact ih _ (stepTask_done_stays env fs dir p i j h)

theorem foldl_finishTask_done_stays {σ : Type} (env : Env σ) (fs : FilerSink) (dir : String)
    (l : List Nat) (p : Pool σ) (j : Nat) (h : p.tasks j = Task.done) :
    (l.foldl (finishTask env fs dir) p).tasks j = Task.done := by
  induction l generalizing p with
  | nil => exact h
  | cons i l ih => exact ih _ (finishTask_done_stays env fs dir p i j h)

/-- After `wg.Wait()` every goroutine started has ended. -/
theorem waited_done {σ : Type} (env : Env σ) (fs : FilerSink) (dir : String) (n : Nat)
    (p : Pool σ) (j : Nat) (hj : j < n) :
    ((List.range n).foldl (finishTask env fs dir) p).tasks j = Task.done := by
  induction n with
  | zero => omega
  | succ n ih =>
    rw [List.range_succ, List.foldl_append]
    simp only [List.foldl_cons, List.foldl_nil]
    by_cases hn : j = n
    · subst hn
      exact finishTask_done env fs dir _ j
    · exact finishTask_done_stays env fs dir _ n j (ih (by omega))

theorem not_failed_of_not_transferred (x : Call) (h : x.isTransferred = false) :
    x.isFailedTransfer = false := by
  cases x with
  | transferred src res => simp [Call.isTransferred] at h
  | _ => rfl

/-- Every statement of a goroutine keeps the invariant. -/
theorem stepTask_inv {σ : Type} (env : Env σ) (fs : FilerSink) (dir : String) (p : Pool σ)
    (i : Nat) (h : p.Inv) : (stepTask env fs dir p i).Inv := by
  obtain ⟨hmeta, hfail, hnil⟩ := h
  cases ht : p.tasks i with
  | start chunk =>
    rw [stepTask_start env fs dir p i chunk ht]
    have hone := replicateOneChunk_log env fs p.state chunk dir
    have hmem : ∀ x, x ∈ p.log ++ (replicateOneChunk env fs p.state chunk dir).log ++
        [Call.transferred chunk (replicateOneChunk env fs p.state chunk dir).val] ↔
        x ∈ p.log ∨ x ∈ (replicateOneChunk env fs p.state chunk dir).log ∨
        x = Call.transferred chunk (replicateOneChunk env fs p.state chunk dir).val := by
      intro x
      simp only [List.mem_append, List.mem_singleton, or_assoc]
    refine ⟨?_, ?_, ?_⟩
    · intro x hx
      rcases (hmem x).mp hx with hx | hx | rfl
      · exact hmeta x hx
      · exact (hone x hx).1
      · rfl
    · rintro ⟨x, hx, hfx⟩
      rcases (hmem x).mp hx with hx | hx | rfl
      · rcases hfail ⟨x, hx, hfx⟩ with herr | ⟨j, e, hj⟩
        · exact Or.inl herr
        · right
          refine ⟨j, e, ?_⟩
          have hji : j ≠ i := by
            intro hji
            rw [hji, ht] at hj
            exact Task.noConfusion hj
          simp only [Function.update_noteq hji]
          exact hj
      · rw [not_failed_of_not_transferred x (hone x hx).2] at hfx
        exact Bool.noConfusion hfx
      · right
        cases hv : (replicateOneChunk env fs p.state chunk dir).val with
        | error e =>
          refine ⟨i, e, ?_⟩
          simp only [hv, Function.update_same]
        | ok rc =>
          rw [hv] at hfx
          exact Bool.noConfusion hfx
    · intro hall
      have hold : ∀ x ∈ p.log, x.isFailedTransfer = false :=
        fun x hx => hall x ((hmem x).mpr (Or.inl hx))
      obtain ⟨hc, htasks⟩ := hnil hold
      refine ⟨hc, ?_⟩
      intro j
      by_cases hji : j = i
      · subst hji
        have hlast := hall _ ((hmem _).mpr (Or.inr (Or.inr rfl)))
        cases hv : (replicateOneChunk env fs p.state chunk dir).val with
        | error e =>
          rw [hv] at hlast
          exact Bool.noConfusion hlast
        | ok rc =>
          simp only [hv, Function.update_same]
          rfl
      · simp only [Function.update_noteq hji]
        exact htasks j
  | setErr e =>
    rw [stepTask_setErr env fs dir p i e ht]
    refine ⟨hmeta, fun _ => Or.inl (by simp), ?_⟩
    intro hall
    have := (hnil hall).2 i
    rw [ht] at this
    exact Bool.noConfusion this
  | load rc =>
    rw [stepTask_load env fs dir p i rc ht]
    refine ⟨hmeta, ?_, ?_⟩
    · intro hex
      rcases hfail hex with herr | ⟨j, e, hj⟩
      · exact Or.inl herr
      · right
        refine ⟨j, e, ?_⟩
        have hji : j ≠ i := by
          intro hji
          rw [hji, ht] at hj
          exact Task.noConfusion hj
        simp only [Function.update_noteq hji]
        exact hj
    · intro hall
      obtain ⟨hc, htasks⟩ := hnil hall
      refine ⟨hc, ?_⟩
      intro j
      by_cases hji : j = i
      · subst hji
        have hrc := htasks j
        rw [ht] at hrc
        simp only [Function.update_same]
        simp only [Task.noNil, Bool.and_eq_true, List.all_eq_true] at hrc ⊢
        refine ⟨hrc, ?_⟩
        intro x hx
        exact Option.isSome_iff_ne_none.mpr (hc x hx)
      · simp only [Function.update_noteq hji]
        exact htasks j
  | store read rc =>
    rw [stepTask_store env fs dir p i read rc ht]
    refine ⟨hmeta, ?_, ?_⟩
    · intro hex
      rcases hfail hex with herr | ⟨j, e, hj⟩
      · exact Or.inl herr
      · right
        refine ⟨j, e, ?_⟩
        have hji : j ≠ i := by
          intro hji
          rw [hji, ht] at hj
          exact Task.noConfusion hj
        simp only [Function.update_noteq hji]
        exact hj
    · intro hall
      obtain ⟨hc, htasks⟩ := hnil hall
      have hrc := htasks i
      rw [ht] at hrc
      simp only [Task.noNil, Bool.and_eq_true, List.all_eq_true] at hrc
      refine ⟨?_, ?_⟩
      · intro x hx
        simp only [List.mem_append, List.mem_singleton] at hx
        rcases hx with hx | rfl
        · exact Option.isSome_iff_ne_none.mp (hrc.2 x hx)
        · exact Option.isSome_iff_ne_none.mp hrc.1
      · intro j
        by_cases hji : j = i
        · subst hji
          simp only [Function.update_same]
          rfl
        · simp only [Function.update_noteq hji]
          exact htasks j
  | done =>
    rw [stepTask_done env fs dir p i ht]
    exact ⟨hmeta, hfail, hnil⟩

theorem foldl_stepTask_inv {σ : Type} (env : Env σ) (fs : FilerSink) (dir : String)
    (l : List Nat) (p : Pool σ) (h : p.Inv) : (l.foldl (stepTask env fs dir) p).Inv := by
  induction l generalizing p with
  | nil => exact h
  | cons i l ih => exact ih _ (stepTask_inv env fs dir p i h)

theorem foldl_finishTask_inv {σ : Type} (env : Env σ) (fs : FilerSink) (dir : String)
    (l : List Nat) (p : Pool σ) (h : p.Inv) : (l.foldl (finishTask env fs dir) p).Inv := by
  induction l generalizing p with
  | nil => exact h
  | cons i l ih =>
    refine ih _ ?_
    unfold finishTask
    exact stepTask_inv env fs dir _ i (stepTask_inv env fs dir _ i
      (stepTask_inv env fs dir _ i (stepTask_inv env fs dir p i h)))

/-- Once every goroutine has been waited for, the invariant gives the two facts the
callers rely on. -/
theorem waited_spec {σ : Type} (env : Env σ) (fs : FilerSink) (dir : String) (n : Nat)
    (l : List Nat) (started : Pool σ) (hinv0 : started.Inv)
    (hdone0 : ∀ j, n ≤ j → started.tasks j = Task.done) :
    (∀ x ∈ ((List.range n).foldl (finishTask env fs dir)
        (l.foldl (stepTask env fs dir) started)).log, x.isMeta = false) ∧
    (((List.range n).foldl (finishTask env fs dir)
        (l.foldl (stepTask env fs dir) started)).err = none →
      ∀ x ∈ ((List.range n).foldl (finishTask env fs dir)
        (l.foldl (stepTask env fs dir) started)).log, x.isFailedTransfer = false) ∧
    (((List.range n).foldl (finishTask env fs dir)
        (l.foldl (stepTask env fs dir) started)).err = none →
      ∀ x ∈ ((List.range n).foldl (finishTask env fs dir)
        (l.foldl (stepTask env fs dir) started)).replicatedChunks, x ≠ none) := by
  have hinv := foldl_finishTask_inv env fs dir (List.range n) _
    (foldl_stepTask_inv env fs dir l started hinv0)
  have hdone : ∀ j, ((List.range n).foldl (finishTask env fs dir)
      (l.foldl (stepTask env fs dir) started)).tasks j = Task.done := by
    intro j
    by_cases hj : j < n
    · exact waited_done env fs dir _ _ j hj
    · exact foldl_finishTask_done_stays env fs dir _ _ j
        (foldl_stepTask_done_stays env fs dir _ _ j (hdone0 j (by omega)))
  generalize (List.range n).foldl (finishTask env fs dir)
      (l.foldl (stepTask env fs dir) started) = waited at hinv hdone
  obtain ⟨hmeta, hfail, hnil⟩ := hinv
  have hnofail : waited.err = none → ∀ x ∈ waited.log, x.isFailedTransfer = false := by
    intro herr x hx
    cases hb : x.isFailedTransfer with
    | false => rfl
    | true =>
      rcases hfail ⟨x, hx, hb⟩ with h1 | ⟨j, e, hj⟩
      · exact absurd herr h1
      · rw [hdone j] at hj
        exact Task.noConfusion hj
  exact ⟨hmeta, hnofail, fun herr => (hnil (hnofail herr)).1⟩

/-- What `replicateChunks` does, however its goroutines interleave: it makes no lookup
and no metadata write; and when it returns a nil error, no transfer has failed and the
slice it returns holds no nil pointer. -/
theorem replicateChunks_spec {σ : Type} (env : Env σ) (fs : FilerSink) (s : σ)
    (chunks : List FileChunk) (dir : String) :
    (∀ x ∈ (replicateChunks env fs s chunks dir).log, x.isMeta = false) ∧
    ((replicateChunks env fs s chunks dir).val.2 = none →
      ∀ x ∈ (replicateChunks env fs s chunks dir).log, x.isFailedTransfer = false) ∧
    ((replicateChunks env fs s chunks dir).val.2 = none →
      ∀ x ∈ (replicateChunks env fs s chunks dir).val.1, x ≠ none) := by
  unfold replicateChunks
  split_ifs with h0
  · simp
  · simp only
    refine waited_spec env fs dir chunks.length (env.schedule chunks) _ ?_ ?_
    · refine ⟨by simp, by simp, fun _ => ⟨by simp, ?_⟩⟩
      intro j
      simp only
      split <;> rfl
    · intro j hj
      simp only [List.getElem?_eq_none hj]



theorem lookupExisting_ok {σ : Type} (env : Env σ) (fs : FilerSink) (s : σ) (key : String)
    (s1 s2 : σ) (resp : LookupDirectoryEntryResponse)
    (hconn : env.connect s fs.grpcAddress = (s1, none))
    (hlook : env.LookupDirectoryEntry s1
      { Directory := (env.DirAndName key).1, Name := (env.DirAndName key).2 }
        = (s2, Except.ok resp)) :
    lookupExisting env fs s key =
      ⟨s2, [Call.lookup { Directory := (env.DirAndName key).1, Name := (env.DirAndName key).2 }],
        Except.ok resp.Entry⟩ := by
  unfold lookupExisting
  rw [withFilerClient_ok env fs s s1 _ _ hconn]
  simp only [hlook]

theorem lookupExisting_log {σ : Type} (env : Env σ) (fs : FilerSink) (s : σ) (key : String) :
    ∀ x ∈ (lookupExisting env fs s key).log, x.isFailedTransfer = false ∧ x.isWrite = false := by
  unfold lookupExisting
  rcases hc : env.connect s fs.grpcAddress with ⟨s1, _ | err⟩
  · rw [withFilerClient_ok env fs s s1 _ _ hc]
    simp only
    split <;> simp [Call.isFailedTransfer, Call.isWrite]
  · rw [withFilerClient_failed env fs s s1 err _ _ hc]
    simp

/-- C6. Create idempotency: when the connection is there, the lookup of the destination
entry succeeds and the fingerprint of its chunks equals that of the new entry's chunks,
`FilerSink.CreateEntry` returns nil and the lookup is the only call it made: no chunk
transfer and no create RPC. -/
theorem CreateEntry_already_replicated {σ : Type} (env : Env σ) (fs : FilerSink) (s : σ)
    (key : String) (entry : Entry) (s1 s2 : σ) (resp : LookupDirectoryEntryResponse)
    (hconn : env.connect s fs.grpcAddress = (s1, none))
    (hlook : env.LookupDirectoryEntry s1
      { Directory := (env.DirAndName key).1, Name := (env.DirAndName key).2 }
        = (s2, Except.ok resp))
    (hetag : env.ETag resp.Entry.Chunks = env.ETag entry.Chunks) :
    (FilerSink.CreateEntry env fs s key entry).val = none ∧
    (FilerSink.CreateEntry env fs s key entry).log =
      [Call.lookup { Directory := (env.DirAndName key).1, Name := (env.DirAndName key).2 }] ∧
    (FilerSink.CreateEntry env fs s key entry).state = s2 := by
  unfold FilerSink.CreateEntry
  rw [withFilerClient_ok env fs s s1 _ _ hconn]
  simp only [hlook, hetag, if_true, and_self]

/-- The destination holds a chunk list with the fingerprint of the new entry's. -/
theorem CreateEntry_already_replicated_witness :
    (FilerSink.CreateEntry (demoEnv (some (demoEntry 5 [demoChunk "1,a" "e1"]))) demoSink
      ⟨0, []⟩ "f" (demoEntry 9 [demoChunk "4,d" "e1"])).val = none ∧
    (FilerSink.CreateEntry (demoEnv (some (demoEntry 5 [demoChunk "1,a" "e1"]))) demoSink
      ⟨0, []⟩ "f" (demoEntry 9 [demoChunk "4,d" "e1"])).log
      = [Call.lookup { Directory := "/", Name := "f" }] ∧
    (FilerSink.CreateEntry (demoEnv (some (demoEntry 5 [demoChunk "1,a" "e1"]))) demoSink
      ⟨0, []⟩ "f" (demoEntry 9 [demoChunk "4,d" "e1"])).state = ⟨0, []⟩ :=
  CreateEntry_already_replicated (demoEnv (some (demoEntry 5 [demoChunk "1,a" "e1"]))) demoSink
    ⟨0, []⟩ "f" (demoEntry 9 [demoChunk "4,d" "e1"]) ⟨0, []⟩ ⟨0, []⟩
    ⟨demoEntry 5 [demoChunk "1,a" "e1"]⟩ rfl rfl (by decide)

/-- C9 at the failing inputs.  The delete RPC completes without transport error and its
response carries the application error `"directory not empty"`, yet
`FilerSink.DeleteEntry` returns nil; the update RPC under `"/full"` answers
`"quota exceeded"`, yet `FilerSink.UpdateEntry` returns a nil error.  Both drop the
response unread.  The create path, through `filer_pb.CreateEntry`, does turn such a
response into an error. -/
theorem sink_ignores_application_error :
    ((demoEnv none).DeleteEntry ⟨0, []⟩ { Directory := "/", Name := "f", IsDeleteData := true }).2
      = Except.ok ⟨"directory not empty"⟩ ∧
    (FilerSink.DeleteEntry (demoEnv none) demoSink ⟨0, []⟩ "f" false true).log
      = [Call.delete { Directory := "/", Name := "f", IsDeleteData := true }] ∧
    (FilerSink.DeleteEntry (demoEnv none) demoSink ⟨0, []⟩ "f" false true).val = none ∧
    ((demoEnv (some (demoEntry 100 [demoChunk "1,a" "e1"]))).UpdateEntry ⟨0, []⟩
      { Directory := "/full", Entry := demoEntry 100 [demoChunk "1,a" "e1"] }).2
      = Except.ok ⟨"quota exceeded"⟩ ∧
    (FilerSink.UpdateEntry (demoEnv (some (demoEntry 100 [demoChunk "1,a" "e1"]))) demoSink
      ⟨0, []⟩ "f" (demoEntry 80 [demoChunk "1,a" "e1"]) "/full"
      (demoEntry 90 [demoChunk "2,b" "e2"]) true).log
      = [Call.lookup { Directory := "/", Name := "f" },
         Call.update { Directory := "/full", Entry := demoEntry 100 [demoChunk "1,a" "e1"] }] ∧
    (FilerSink.UpdateEntry (demoEnv (some (demoEntry 100 [demoChunk "1,a" "e1"]))) demoSink
      ⟨0, []⟩ "f" (demoEntry 80 [demoChunk "1,a" "e1"]) "/full"
      (demoEntry 90 [demoChunk "2,b" "e2"]) true).val = (true, none) ∧
    (filer_pb.CreateEntry
      { demoEnv none with CreateEntry := fun s _ => (s, Except.ok ⟨"exists"⟩) } ⟨0, []⟩
      { Directory := "/", Entry := demoEntry 1 [], OExcl := false }).val
      = some (GoError.mk "CreateEntry : exists") := by
  refine ⟨rfl, rfl, rfl, rfl, ?_, ?_, rfl⟩
  · rfl
  · decide

theorem isWrite_of_isMeta (x : Call) (h : x.isMeta = false) : x.isWrite = false := by
  cases x <;> simp_all [Call.isMeta, Call.isWrite]

theorem filer_pb_CreateEntry_log {σ : Type} (env : Env σ) (s : σ) (request : CreateEntryRequest) :
    (filer_pb.CreateEntry env s request).log = [Call.create request] := by
  unfold filer_pb.CreateEntry
  split
  · rfl
  · split_ifs <;> rfl

/-- The second half of `CreateEntry`: a failed transfer makes it return an error before
the create RPC. -/
theorem createReplicated_fail {σ : Type} (env : Env σ) (fs : FilerSink) (s : σ) (key : String)
    (entry : Entry) (log : List Call)
    (hlog : ∀ x ∈ log, x.isFailedTransfer = false ∧ x.isWrite = false)
    (h : ∃ x ∈ (createReplicated env fs s key entry log).log, x.isFailedTransfer = true) :
    (createReplicated env fs s key entry log).val ≠ none ∧
    ∀ x ∈ (createReplicated env fs s key entry log).log, x.isWrite = false := by
  obtain ⟨hmeta, hiff, -⟩ := replicateChunks_spec env fs s entry.Chunks (env.DirAndName key).1
  unfold createReplicated at h ⊢
  simp only at h ⊢
  cases hv : (replicateChunks env fs s entry.Chunks (env.DirAndName key).1).val.2 with
  | some err =>
    simp only [hv] at h ⊢
    refine ⟨by simp, ?_⟩
    intro x hx
    rw [List.mem_append] at hx
    rcases hx with hx | hx
    · exact (hlog x hx).2
    · exact isWrite_of_isMeta x (hmeta x hx)
  | none =>
    exfalso
    have hnf := hiff hv
    simp only [hv] at h
    obtain ⟨x, hx, hfx⟩ := h
    have hx2 : x ∈ log ++ (replicateChunks env fs s entry.Chunks (env.DirAndName key).1).log ++
        (filer_pb.CreateEntry env (replicateChunks env fs s entry.Chunks (env.DirAndName key).1).state
          { Directory := (env.DirAndName key).1,
            Entry := { Name := (env.DirAndName key).2, IsDirectory := entry.IsDirectory,
                       Chunks :=
                         (replicateChunks env fs s entry.Chunks
                           (env.DirAndName key).1).val.1.reduceOption,
                       Attributes := entry.Attributes },
            OExcl := false }).log := by
      revert hx
      split <;> exact id
    rw [filer_pb_CreateEntry_log] at hx2
    simp only [List.mem_append, List.mem_singleton] at hx2
    rcases hx2 with (hx2 | hx2) | rfl
    · rw [(hlog x hx2).1] at hfx; exact Bool.noConfusion hfx
    · rw [hnf x hx2] at hfx; exact Bool.noConfusion hfx
    · exact Bool.noConfusion hfx

theorem saveUpdated_log {σ : Type} (env : Env σ) (fs : FilerSink) (s : σ) (key npp : String)
    (e : Entry) (log : List Call) :
    ∃ w, (saveUpdated env fs s key npp e log).log = log ++ w ∧
      ∀ x ∈ w, x.isFailedTransfer = false := by
  unfold saveUpdated
  rcases hc : env.connect s fs.grpcAddress with ⟨s1, _ | err⟩
  · rw [withFilerClient_ok env fs s s1 _ _ hc]
    simp only
    split
    · exact ⟨_, rfl, by simp [Call.isFailedTransfer]⟩
    · exact ⟨_, rfl, by simp [Call.isFailedTransfer]⟩
  · rw [withFilerClient_failed env fs s s1 err _ _ hc]
    exact ⟨[], rfl, by simp⟩

theorem saveUpdated_no_fail {σ : Type} (env : Env σ) (fs : FilerSink) (s : σ) (key npp : String)
    (e : Entry) (log : List Call) (hlog : ∀ x ∈ log, x.isFailedTransfer = false) :
    ∀ x ∈ (saveUpdated env fs s key npp e log).log, x.isFailedTransfer = false := by
  obtain ⟨w, hw, hnf⟩ := saveUpdated_log env fs s key npp e log
  rw [hw]
  intro x hx
  rw [List.mem_append] at hx
  exact hx.elim (hlog x) (hnf x)

/-- C8. No partial commit: if, in a call of `FilerSink.CreateEntry` or of
`FilerSink.UpdateEntry`, the transfer of some chunk failed, whatever became of the
other chunks, then the call returns an error and has made no metadata write: no create
RPC, respectively no update RPC (and no delete RPC either). -/
theorem no_partial_commit {σ : Type} (env : Env σ) (fs : FilerSink) (s : σ) (key : String)
    (entry oldEntry : Entry) (newParentPath : String) (newEntry : Entry)
    (deleteIncludeChunks : Bool) :
    ((∃ x ∈ (FilerSink.CreateEntry env fs s key entry).log, x.isFailedTransfer = true) →
      (FilerSink.CreateEntry env fs s key entry).val ≠ none ∧
      ∀ x ∈ (FilerSink.CreateEntry env fs s key entry).log, x.isWrite = false) ∧
    ((∃ x ∈ (FilerSink.UpdateEntry env fs s key oldEntry newParentPath newEntry
        deleteIncludeChunks).log, x.isFailedTransfer = true) →
      (FilerSink.UpdateEntry env fs s key oldEntry newParentPath newEntry
        deleteIncludeChunks).val.2 ≠ none ∧
      ∀ x ∈ (FilerSink.UpdateEntry env fs s key oldEntry newParentPath newEntry
        deleteIncludeChunks).log, x.isWrite = false) := by
  have hlookup : ∀ req : LookupDirectoryEntryRequest, ∀ x ∈ [Call.lookup req],
      x.isFailedTransfer = false ∧ x.isWrite = false := by
    intro req x hx
    simp only [List.mem_singleton] at hx
    subst hx
    exact ⟨rfl, rfl⟩
  constructor
  · unfold FilerSink.CreateEntry
    rcases hc : env.connect s fs.grpcAddress with ⟨s1, _ | err⟩
    · rw [withFilerClient_ok env fs s s1 _ _ hc]
      simp only
      split
      · split_ifs
        · rintro ⟨x, hx, hfx⟩
          rw [(hlookup _ x hx).1] at hfx
          exact Bool.noConfusion hfx
        · exact createReplicated_fail env fs _ key entry _ (hlookup _)
      · exact createReplicated_fail env fs _ key entry _ (hlookup _)
    · rw [withFilerClient_failed env fs s s1 err _ _ hc]
      rintro ⟨x, hx, -⟩
      simp at hx
  · have hl := lookupExisting_log env fs s key
    unfold FilerSink.UpdateEntry
    generalize lookupExisting env fs s key = l at hl
    have hl1 : ∀ x ∈ l.log, x.isFailedTransfer = false := fun x hx => (hl x hx).1
    simp only
    split
    · rintro ⟨x, hx, hfx⟩
      rw [hl1 x hx] at hfx
      exact Bool.noConfusion hfx
    · rename_i existingEntry hval
      by_cases hstale : existingEntry.Attributes.Mtime > newEntry.Attributes.Mtime
      · simp only [hstale, if_true]
        rintro ⟨x, hx, hfx⟩
        rw [saveUpdated_no_fail env fs _ key newParentPath _ _ hl1 x hx] at hfx
        exact Bool.noConfusion hfx
      · simp only [hstale, if_false]
        by_cases hsame : env.ETag newEntry.Chunks = env.ETag existingEntry.Chunks
        · simp only [hsame, if_true]
          rintro ⟨x, hx, hfx⟩
          rw [saveUpdated_no_fail env fs _ key newParentPath _ _ hl1 x hx] at hfx
          exact Bool.noConfusion hfx
        · simp only [hsame, if_false]
          obtain ⟨hmeta, hiff, -⟩ := replicateChunks_spec env fs l.state
            (compareChunks env oldEntry newEntry).2 newParentPath
          cases hv : (replicateChunks env fs l.state (compareChunks env oldEntry newEntry).2
              newParentPath).val.2 with
          | some err =>
            simp only
            intro _
            refine ⟨by simp, ?_⟩
            intro x hx
            rw [List.mem_append] at hx
            rcases hx with hx | hx
            · exact (hl x hx).2
            · exact isWrite_of_isMeta x (hmeta x hx)
          | none =>
            simp only
            rintro ⟨x, hx, hfx⟩
            have hnf := hiff hv
            have hl2 : ∀ x ∈ l.log ++ (replicateChunks env fs l.state
                (compareChunks env oldEntry newEntry).2 newParentPath).log,
                x.isFailedTransfer = false := by
              intro y hy
              rw [List.mem_append] at hy
              exact hy.elim (hl1 y) (hnf y)
            rw [saveUpdated_no_fail env fs _ key newParentPath _ _ hl2 x hx] at hfx
            exact Bool.noConfusion hfx

/-- Three chunks, the assignment for the second is refused: `CreateEntry` fails and has
written nothing. -/
theorem no_partial_commit_witness :
    (∃ x ∈ (FilerSink.CreateEntry (demoEnv none) demoSink ⟨0, []⟩ "f"
        (demoEntry 5 [demoChunk "1,a" "e1", demoChunk "2,b" "e2", demoChunk "3,c" "e3"])).log,
      x.isFailedTransfer = true) ∧
    (FilerSink.CreateEntry (demoEnv none) demoSink ⟨0, []⟩ "f"
      (demoEntry 5 [demoChunk "1,a" "e1", demoChunk "2,b" "e2", demoChunk "3,c" "e3"])).val
      ≠ none ∧
    ∀ x ∈ (FilerSink.CreateEntry (demoEnv none) demoSink ⟨0, []⟩ "f"
      (demoEntry 5 [demoChunk "1,a" "e1", demoChunk "2,b" "e2", demoChunk "3,c" "e3"])).log,
      x.isWrite = false :=
  have h : ∃ x ∈ (FilerSink.CreateEntry (demoEnv none) demoSink ⟨0, []⟩ "f"
      (demoEntry 5 [demoChunk "1,a" "e1", demoChunk "2,b" "e2", demoChunk "3,c" "e3"])).log,
      x.isFailedTransfer = true := by decide
  ⟨h, (no_partial_commit (demoEnv none) demoSink ⟨0, []⟩ "f"
    (demoEntry 5 [demoChunk "1,a" "e1", demoChunk "2,b" "e2", demoChunk "3,c" "e3"])
    (demoEntry 5 []) "/" (demoEntry 5 []) true).1 h⟩

/-- C10 at the failing input.  The destination holds chunk `3,c` with `Mtime = 10`; the
source went from chunk `1,a` to chunks `2,b` and `4,d`, `Mtime = 90`.  The lookup
succeeds, neither guard fires, `added` is `[2,b; 4,d]` and both transfers succeed.  When
the two goroutines of `replicateChunks` both read the shared slice before either stores
its `append`, the result of `2,b` is lost: the call returns `(true, nil)` and the entry
written holds `3,c` and the copy of `4,d` alone.  When the goroutines run one after
another, the entry written holds `3,c` and both copies. -/
theorem UpdateEntry_merge_loses_result :
    ¬ ((demoEntry 10 [demoChunk "3,c" "e3"]).Attributes.Mtime
      > (demoEntry 90 [demoChunk "2,b" "e2", demoChunk "4,d" "e4"]).Attributes.Mtime) ∧
    (raceEnv (some (demoEntry 10 [demoChunk "3,c" "e3"]))).ETag
        (demoEntry 90 [demoChunk "2,b" "e2", demoChunk "4,d" "e4"]).Chunks
      ≠ (raceEnv (some (demoEntry 10 [demoChunk "3,c" "e3"]))).ETag
        (demoEntry 10 [demoChunk "3,c" "e3"]).Chunks ∧
    (compareChunks (raceEnv (some (demoEntry 10 [demoChunk "3,c" "e3"])))
      (demoEntry 80 [demoChunk "1,a" "e1"])
      (demoEntry 90 [demoChunk "2,b" "e2", demoChunk "4,d" "e4"]))
      = ([demoChunk "1,a" "e1"], [demoChunk "2,b" "e2", demoChunk "4,d" "e4"]) ∧
    transfers (FilerSink.UpdateEntry (raceEnv (some (demoEntry 10 [demoChunk "3,c" "e3"])))
      demoSink ⟨0, []⟩ "f" (demoEntry 80 [demoChunk "1,a" "e1"]) "/"
      (demoEntry 90 [demoChunk "2,b" "e2", demoChunk "4,d" "e4"]) true).log
      = [(demoChunk "2,b" "e2", Except.ok
          { FileId := "7,0000000000000001000000aa", Offset := 0, Size := 4, Mtime := 0,
            ETag := "e2", SourceFileId := "2,b", Fid := none, SourceFid := none }),
         (demoChunk "4,d" "e4", Except.ok
          { FileId := "8,0000000000000002000000bb", Offset := 0, Size := 4, Mtime := 0,
            ETag := "e4", SourceFileId := "4,d", Fid := none, SourceFid := none })] ∧
    (FilerSink.UpdateEntry (raceEnv (some (demoEntry 10 [demoChunk "3,c" "e3"])))
      demoSink ⟨0, []⟩ "f" (demoEntry 80 [demoChunk "1,a" "e1"]) "/"
      (demoEntry 90 [demoChunk "2,b" "e2", demoChunk "4,d" "e4"]) true).val = (true, none) ∧
    (FilerSink.UpdateEntry (raceEnv (some (demoEntry 10 [demoChunk "3,c" "e3"])))
      demoSink ⟨0, []⟩ "f" (demoEntry 80 [demoChunk "1,a" "e1"]) "/"
      (demoEntry 90 [demoChunk "2,b" "e2", demoChunk "4,d" "e4"]) true).state.written
      = [("/", demoEntry 10 [demoChunk "3,c" "e3",
          { FileId := "8,0000000000000002000000bb", Offset := 0, Size := 4, Mtime := 0,
            ETag := "e4", SourceFileId := "4,d", Fid := none, SourceFid := none }])] ∧
    (FilerSink.UpdateEntry
      { raceEnv (some (demoEntry 10 [demoChunk "3,c" "e3"])) with schedule := fun _ => [] }
      demoSink ⟨0, []⟩ "f" (demoEntry 80 [demoChunk "1,a" "e1"]) "/"
      (demoEntry 90 [demoChunk "2,b" "e2", demoChunk "4,d" "e4"]) true).state.written
      = [("/", demoEntry 10 [demoChunk "3,c" "e3",
          { FileId := "7,0000000000000001000000aa", Offset := 0, Size := 4, Mtime := 0,
            ETag := "e2", SourceFileId := "2,b", Fid := none, SourceFid := none },
          { FileId := "8,0000000000000002000000bb", Offset := 0, Size := 4, Mtime := 0,
            ETag := "e4", SourceFileId := "4,d", Fid := none, SourceFid := none }])] := by
  refine ⟨by decide, by decide, by decide, rfl, by decide, by decide, by decide⟩

theorem assignVolume_ok {σ : Type} (env : Env σ) (fs : FilerSink) (s s1 s2 : σ) (dir : String)
    (resp : AssignVolumeResponse)
    (hconn : env.connect s fs.grpcAddress = (s1, none))
    (hassign : env.AssignVolume s1
      { Count := 1, Replication := fs.replication, Collection := fs.collection,
        TtlSec := fs.ttlSec, DataCenter := fs.dataCenter, ParentPath := dir }
      = (s2, Except.ok resp))
    (herr : resp.Error = "") :
    (assignVolume env fs s dir).val = (none, resp.FileId, resp.Url, resp.Auth) ∧
    (assignVolume env fs s dir).state = s2 := by
  unfold assignVolume
  rw [withFilerClient_ok env fs s s1 _ _ hconn]
  simp [hassign, herr]

theorem assignVolume_none {σ : Type} (env : Env σ) (fs : FilerSink) (s : σ) (dir : String)
    (h : (assignVolume env fs s dir).val.1 = none) :
    ∃ s1 s2 resp, env.connect s fs.grpcAddress = (s1, none) ∧
      env.AssignVolume s1
        { Count := 1, Replication := fs.replication, Collection := fs.collection,
          TtlSec := fs.ttlSec, DataCenter := fs.dataCenter, ParentPath := dir }
        = (s2, Except.ok resp) ∧ resp.Error = "" := by
  unfold assignVolume at h
  rcases hc : env.connect s fs.grpcAddress with ⟨s1, _ | err⟩
  · rw [withFilerClient_ok env fs s s1 _ _ hc] at h
    rcases ha : env.AssignVolume s1
        { Count := 1, Replication := fs.replication, Collection := fs.collection,
          TtlSec := fs.ttlSec, DataCenter := fs.dataCenter, ParentPath := dir }
      with ⟨s2, err | resp⟩
    · simp [ha] at h
    · by_cases he : resp.Error = ""
      · exact ⟨s1, s2, resp, rfl, ha, he⟩
      · simp [ha, he] at h
  · rw [withFilerClient_failed env fs s s1 err _ _ hc] at h
    simp at h

/-- The result of `fetchAndWrite` when the three steps succeed. -/
theorem fetchAndWrite_ok {σ : Type} (env : Env σ) (fs : FilerSink) (s : σ)
    (sourceChunk : FileChunk) (dir : String) (resp : AssignVolumeResponse)
    (h : stepsSucceed env fs s sourceChunk dir resp) :
    (fetchAndWrite env fs s sourceChunk dir).val = Except.ok resp.FileId := by
  obtain ⟨s1, s2, s3, s4, part, ur, hread, hconn, hassign, herr, hup, huerr⟩ := h
  obtain ⟨hval, hstate⟩ := assignVolume_ok env fs s1 s2 s3 dir resp hconn hassign herr
  unfold fetchAndWrite
  simp only [hread, hval, hstate, hup, huerr, ne_eq, not_true_eq_false, if_false]

/-- When `fetchAndWrite` returns a file id, the three steps succeeded and the file id is
the one the assignment answered. -/
theorem fetchAndWrite_ok_inv {σ : Type} (env : Env σ) (fs : FilerSink) (s : σ)
    (sourceChunk : FileChunk) (dir : String) (fileId : String)
    (h : (fetchAndWrite env fs s sourceChunk dir).val = Except.ok fileId) :
    ∃ resp, stepsSucceed env fs s sourceChunk dir resp ∧ fileId = resp.FileId := by
  unfold fetchAndWrite at h
  rcases hread : env.ReadPart s (fileIdString env sourceChunk) with ⟨s1, err | part⟩
  · simp [hread] at h
  · simp only [hread] at h
    rcases hv : (assignVolume env fs s1 dir).val with ⟨_ | err, fid, host, auth⟩
    · obtain ⟨s2, s3, resp, hconn, hassign, herr⟩ :=
        assignVolume_none env fs s1 dir (by rw [hv])
      obtain ⟨hval, hstate⟩ := assignVolume_ok env fs s1 s2 s3 dir resp hconn hassign herr
      simp only [hval, hstate] at h
      rcases hup : env.Upload s3
          { fileUrl := "http://" ++ resp.Url ++ "/" ++ resp.FileId, filename := part.filename,
            readCloser := part.readCloser, isGzip := "gzip" == part.contentEncoding,
            contentType := part.contentType, auth := resp.Auth }
        with ⟨s4, err | ur⟩
      · simp [hup] at h
      · by_cases hu : ur.Error = ""
        · simp [hup, hu] at h
          exact ⟨resp, ⟨s1, s2, s3, s4, part, ur, hread, hconn, hassign, herr, hup, hu⟩, h.symm⟩
        · simp [hup, hu] at h
    · simp [hv] at h

/-- C11. The result of one transfer.  If the fetch, the assignment and the upload all
succeed, `replicateOneChunk` returns a new chunk whose `FileId` is the one the
assignment answered, whose `Offset`, `Size`, `Mtime` and `ETag` are the source chunk's
and whose `SourceFileId` is the source chunk's `GetFileIdString()`.  If they do not all
succeed, it returns an error and no chunk. -/
theorem replicateOneChunk_result {σ : Type} (env : Env σ) (fs : FilerSink) (s : σ)
    (sourceChunk : FileChunk) (dir : String) :
    (∀ resp, stepsSucceed env fs s sourceChunk dir resp →
      (replicateOneChunk env fs s sourceChunk dir).val = Except.ok
        { FileId := resp.FileId, Offset := sourceChunk.Offset, Size := sourceChunk.Size,
          Mtime := sourceChunk.Mtime, ETag := sourceChunk.ETag,
          SourceFileId := (GetFileIdString env.codec sourceChunk).1,
          Fid := none, SourceFid := none }) ∧
    ((¬ ∃ resp, stepsSucceed env fs s sourceChunk dir resp) →
      ∃ err, (replicateOneChunk env fs s sourceChunk dir).val = Except.error err) := by
  constructor
  · intro resp h
    have hf := fetchAndWrite_ok env fs s sourceChunk dir resp h
    unfold replicateOneChunk
    simp only [hf, fileIdString]
  · intro hno
    unfold replicateOneChunk
    cases hf : (fetchAndWrite env fs s sourceChunk dir).val with
    | error err =>
      simp only [hf]
      exact ⟨_, rfl⟩
    | ok fileId =>
      obtain ⟨resp, hs, -⟩ := fetchAndWrite_ok_inv env fs s sourceChunk dir fileId hf
      exact absurd ⟨resp, hs⟩ hno

/-- The first assignment of the test double succeeds: chunk `2,b` is copied to the file id
it answers. -/
theorem replicateOneChunk_result_witness :
    stepsSucceed (demoEnv none) demoSink ⟨0, []⟩ (demoChunk "2,b" "e2") "/"
      { FileId := "7,0000000000000001000000aa", Url := "dst:8080", Auth := "", Error := "" } ∧
    (replicateOneChunk (demoEnv none) demoSink ⟨0, []⟩ (demoChunk "2,b" "e2") "/").val
      = Except.ok
        { FileId := "7,0000000000000001000000aa", Offset := 0, Size := 4, Mtime := 0,
          ETag := "e2", SourceFileId := "2,b", Fid := none, SourceFid := none } :=
  have h : stepsSucceed (demoEnv none) demoSink ⟨0, []⟩ (demoChunk "2,b" "e2") "/"
      { FileId := "7,0000000000000001000000aa", Url := "dst:8080", Auth := "", Error := "" } :=
    ⟨⟨0, []⟩, ⟨0, []⟩, ⟨1, []⟩, ⟨1, []⟩, ⟨"2,b", "", "text/plain", 0⟩, ⟨""⟩,
      rfl, rfl, rfl, rfl, rfl, rfl⟩
  ⟨h, (replicateOneChunk_result (demoEnv none) demoSink ⟨0, []⟩ (demoChunk "2,b" "e2") "/").1
    _ h⟩

/-- C12. `foundExistingEntry` is false exactly when the lookup fails.  If the connection
cannot be had, or the lookup RPC returns an error (a miss included), `UpdateEntry`
returns `(false, err)` with the lookup error wrapped, and has made no call besides the
lookup: no chunk transfer and no metadata write.  If the lookup returns an entry,
`UpdateEntry` returns `foundExistingEntry = true` whatever path it takes.  Hence the
result is false if and only if the lookup failed. -/
theorem UpdateEntry_foundExistingEntry {σ : Type} (env : Env σ) (fs : FilerSink) (s : σ)
    (key : String) (oldEntry : Entry) (newParentPath : String) (newEntry : Entry)
    (deleteIncludeChunks : Bool) :
    (∀ s1 err, env.connect s fs.grpcAddress = (s1, some err) →
      (FilerSink.UpdateEntry env fs s key oldEntry newParentPath newEntry
        deleteIncludeChunks).val
        = (false, some (GoError.mk ("lookup " ++ key ++ ": " ++ err.Error))) ∧
      (FilerSink.UpdateEntry env fs s key oldEntry newParentPath newEntry
        deleteIncludeChunks).log = []) ∧
    (∀ s1 s2 err, env.connect s fs.grpcAddress = (s1, none) →
      env.LookupDirectoryEntry s1
        { Directory := (env.DirAndName key).1, Name := (env.DirAndName key).2 }
        = (s2, Except.error err) →
      (FilerSink.UpdateEntry env fs s key oldEntry newParentPath newEntry
        deleteIncludeChunks).val
        = (false, some (GoError.mk ("lookup " ++ key ++ ": " ++ err.Error))) ∧
      (FilerSink.UpdateEntry env fs s key oldEntry newParentPath newEntry
        deleteIncludeChunks).log
        = [Call.lookup { Directory := (env.DirAndName key).1,
                         Name := (env.DirAndName key).2 }]) ∧
    (∀ s1 s2 resp, env.connect s fs.grpcAddress = (s1, none) →
      env.LookupDirectoryEntry s1
        { Directory := (env.DirAndName key).1, Name := (env.DirAndName key).2 }
        = (s2, Except.ok resp) →
      (FilerSink.UpdateEntry env fs s key oldEntry newParentPath newEntry
        deleteIncludeChunks).val.1 = true) ∧
    ((FilerSink.UpdateEntry env fs s key oldEntry newParentPath newEntry
        deleteIncludeChunks).val.1 = false ↔
      (∃ s1 err, env.connect s fs.grpcAddress = (s1, some err)) ∨
      (∃ s1 s2 err, env.connect s fs.grpcAddress = (s1, none) ∧
        env.LookupDirectoryEntry s1
          { Directory := (env.DirAndName key).1, Name := (env.DirAndName key).2 }
          = (s2, Except.error err))) := by
  have hfail : ∀ s1 err, env.connect s fs.grpcAddress = (s1, some err) →
      (FilerSink.UpdateEntry env fs s key oldEntry newParentPath newEntry
        deleteIncludeChunks).val
        = (false, some (GoError.mk ("lookup " ++ key ++ ": " ++ err.Error))) ∧
      (FilerSink.UpdateEntry env fs s key oldEntry newParentPath newEntry
        deleteIncludeChunks).log = [] := by
    intro s1 err hc
    unfold FilerSink.UpdateEntry lookupExisting
    rw [withFilerClient_failed env fs s s1 err _ _ hc]
    exact ⟨rfl, rfl⟩
  have hmiss : ∀ s1 s2 err, env.connect s fs.grpcAddress = (s1, none) →
      env.LookupDirectoryEntry s1
        { Directory := (env.DirAndName key).1, Name := (env.DirAndName key).2 }
        = (s2, Except.error err) →
      (FilerSink.UpdateEntry env fs s key oldEntry newParentPath newEntry
        deleteIncludeChunks).val
        = (false, some (GoError.mk ("lookup " ++ key ++ ": " ++ err.Error))) ∧
      (FilerSink.UpdateEntry env fs s key oldEntry newParentPath newEntry
        deleteIncludeChunks).log
        = [Call.lookup { Directory := (env.DirAndName key).1,
                         Name := (env.DirAndName key).2 }] := by
    intro s1 s2 err hc hl
    unfold FilerSink.UpdateEntry lookupExisting
    rw [withFilerClient_ok env fs s s1 _ _ hc]
    simp only [hl, and_self]
  have hfound : ∀ s1 s2 resp, env.connect s fs.grpcAddress = (s1, none) →
      env.LookupDirectoryEntry s1
        { Directory := (env.DirAndName key).1, Name := (env.DirAndName key).2 }
        = (s2, Except.ok resp) →
      (FilerSink.UpdateEntry env fs s key oldEntry newParentPath newEntry
        deleteIncludeChunks).val.1 = true := by
    intro s1 s2 resp hc hl
    unfold FilerSink.UpdateEntry
    rw [lookupExisting_ok env fs s key s1 s2 resp hc hl]
    simp only
    have hsave : ∀ (st : σ) (e : Entry) (log : List Call),
        (saveUpdated env fs st key newParentPath e log).val.1 = true := fun _ _ _ => rfl
    split_ifs <;> first | exact hsave _ _ _ | (split <;> rfl)
  refine ⟨hfail, hmiss, hfound, ?_⟩
  constructor
  · intro hfalse
    rcases hc : env.connect s fs.grpcAddress with ⟨s1, _ | err⟩
    · rcases hl : env.LookupDirectoryEntry s1
          { Directory := (env.DirAndName key).1, Name := (env.DirAndName key).2 }
        with ⟨s2, err | resp⟩
      · exact Or.inr ⟨s1, s2, err, rfl, hl⟩
      · rw [hfound s1 s2 resp hc hl] at hfalse
        exact Bool.noConfusion hfalse
    · exact Or.inl ⟨s1, err, rfl⟩
  · rintro (⟨s1, err, hc⟩ | ⟨s1, s2, err, hc, hl⟩)
    · rw [(hfail s1 err hc).1]
    · rw [(hmiss s1 s2 err hc hl).1]

/-- The destination filer has no entry at the key: `UpdateEntry` returns
`(false, err)` after the lookup alone. -/
theorem UpdateEntry_foundExistingEntry_witness :
    (FilerSink.UpdateEntry (demoEnv none) demoSink ⟨0, []⟩ "f"
      (demoEntry 80 [demoChunk "1,a" "e1"]) "/" (demoEntry 90 [demoChunk "2,b" "e2"]) true).val
      = (false, some (GoError.mk ("lookup " ++ "f" ++ ": " ++ (GoError.mk "not found").Error))) ∧
    (FilerSink.UpdateEntry (demoEnv none) demoSink ⟨0, []⟩ "f"
      (demoEntry 80 [demoChunk "1,a" "e1"]) "/" (demoEntry 90 [demoChunk "2,b" "e2"]) true).log
      = [Call.lookup { Directory := "/", Name := "f" }] :=
  (UpdateEntry_foundExistingEntry (demoEnv none) demoSink ⟨0, []⟩ "f"
    (demoEntry 80 [demoChunk "1,a" "e1"]) "/" (demoEntry 90 [demoChunk "2,b" "e2"]) true).2.1
    ⟨0, []⟩ ⟨0, []⟩ (GoError.mk "not found") rfl rfl

end filersink

end Seaweed
